import Mathlib

/-!
# Schema-metadata cache of `internal/database` (cache.go, sqlite3.go)

A shallow embedding of the cache builder (`DBCacheGenerator`) and of the cache
snapshot (`DBCache`) with its query operations, followed by the properties proved
about them.

Modelling conventions.

* A Go `string` is the list of its runes (code points), `GoString`.  Only valid
  UTF-8 strings are represented.  Go compares strings byte by byte; on valid
  UTF-8 this is the lexicographic order of the code points, which is the order
  of `List Nat` used here.
* A Go `map[string]V` is an association list, `GoMap V`: `mapGet` is the read
  `m[k]`, `mapSet` the assignment `m[k] = v`.  The position of an entry in the
  list carries no meaning: `range` over a map may enumerate the entries in any
  order, and the operations that enumerate a map take the enumeration as a
  permutation of the entries.
* A slice is the list of its elements.  A `*ColumnDesc` is the value it points
  to (no nil elements).  The slices stored in `SchemaTables` are assumed not to
  share their backing arrays with one another.
* A Go result pair `(v, err)` with `err != nil` is `Except.error err`; with
  `err == nil` it is `Except.ok v`.  The `context.Context` argument is dropped.
* The SQLite provider is given by the outcomes of the queries it sends.  Its
  calls fail with a `Failure`, which tells a returned error from `log.Fatal`
  ending the process.
-/

namespace Sqls

/-! ## Strings -/

/-- A Go string, as the list of its code points. -/
abbrev GoString := List Nat

/-- The Go string written as a literal. -/
def str (s : String) : GoString := s.toList.map Char.toNat

/-- The tab character used as separator of the composite keys. -/
def tab : Nat := 9

/-- The part of the Go standard library's Unicode case tables that is consulted
for runes above `unicode.MaxASCII`.  The tables are not part of this repository
and are a parameter of the development: `upper r` is `unicode.To(UpperCase, r)`,
`lower r` is `unicode.To(LowerCase, r)`, and `foldReaches sr tr` (for `sr < tr`)
is the outcome of the `unicode.SimpleFold` orbit search of `strings.EqualFold`. -/
structure CaseTables where
  upper : Nat → Nat
  lower : Nat → Nat
  foldReaches : Nat → Nat → Bool

/-- Go: `unicode.ToUpper`. -/
def unicodeToUpper (T : CaseTables) (r : Nat) : Nat :=
  if r ≤ 0x7F then
    if 97 ≤ r ∧ r ≤ 122 then r - (97 - 65) else r
  else T.upper r

/-- Go: `unicode.ToLower`. -/
def unicodeToLower (T : CaseTables) (r : Nat) : Nat :=
  if r ≤ 0x7F then
    if 65 ≤ r ∧ r ≤ 90 then r + (97 - 65) else r
  else T.lower r

/-- Go: `strings.ToUpper` (the mapping of `unicode.ToUpper` over the runes). -/
def ToUpper (T : CaseTables) (s : GoString) : GoString := s.map (unicodeToUpper T)

/-- Go: `strings.ToLower`. -/
def ToLower (T : CaseTables) (s : GoString) : GoString := s.map (unicodeToLower T)

/-- One step of the rune loop of `strings.EqualFold`: the two runes are equal, or,
ordered as `sr < tr`, they are an ASCII upper/lower pair, or (above ASCII) the
fold orbit of `sr` reaches `tr`. -/
def equalFoldRune (T : CaseTables) (sr tr : Nat) : Bool :=
  if tr = sr then true
  else
    let lo := min sr tr
    let hi := max sr tr
    if hi < 0x80 then
      decide (65 ≤ lo ∧ lo ≤ 90 ∧ hi = lo + (97 - 65))
    else T.foldReaches lo hi

/-- Go: `strings.EqualFold`. -/
def EqualFold (T : CaseTables) : GoString → GoString → Bool
  | [], [] => true
  | [], _ :: _ => false
  | _ :: _, [] => false
  | sr :: s, tr :: t => equalFoldRune T sr tr && EqualFold T s t

/-- Go: `sort.Strings`, which leaves the slice a non-decreasing permutation of
itself.  Equal strings are indistinguishable, so that permutation is unique and
any sorting algorithm computes it; insertion sort is used. -/
def sortStrings (xs : List GoString) : List GoString :=
  xs.insertionSort (· ≤ ·)

/-! ## Maps -/

/-- A Go `map[string]V`. -/
abbrev GoMap (V : Type) := List (GoString × V)

/-- Go: `v, ok := m[k]`, with `none` for `ok = false`. -/
def mapGet {V : Type} : GoMap V → GoString → Option V
  | [], _ => none
  | (k', v) :: rest, k => if k' = k then some v else mapGet rest k

/-- Go: `m[k] = v`. -/
def mapSet {V : Type} : GoMap V → GoString → V → GoMap V
  | [], k, v => [(k, v)]
  | (k', v') :: rest, k, v =>
    if k' = k then (k', v) :: rest else (k', v') :: mapSet rest k v

/-! ## Descriptors -/

/-- Modelled from the spec: the declaration of `ColumnDesc` is not among the
sources.  The fields are those the sources read or write (`Schema`, `Table`,
`Name`, `Type`, `Null`, `Default`, `Key`), as the spec's ColumnDescriptor lists
them; `Default` is a nullable text, and `Typ` stands for the Go field `Type`. -/
structure ColumnDesc where
  Schema : GoString
  Table : GoString
  Name : GoString
  Typ : GoString
  Null : GoString
  Default : Option GoString
  Key : GoString
deriving DecidableEq, Repr

/-- Modelled from the spec: the declaration of `IndexDesc` is not among the
sources.  The sources read `Schema` and `Table`; the spec's IndexDescriptor adds
the index name and engine-specific descriptive fields. -/
structure IndexDesc where
  Schema : GoString
  Table : GoString
  Name : GoString
  Typ : GoString
  Columns : List GoString
  Cardinality : Nat
deriving DecidableEq, Repr

/-! ## The cache snapshot -/

/-- Go: `type DBCache struct`. -/
structure DBCache where
  defaultSchema : GoString
  Schemas : GoMap GoString
  SchemaTables : GoMap (List GoString)
  ColumnsWithParent : GoMap (List ColumnDesc)
  IndexWithParent : GoMap (List IndexDesc)
deriving DecidableEq, Repr

/-- Go: `columnDatabaseKey`. -/
def columnDatabaseKey (dbName tableName : GoString) : GoString :=
  dbName ++ [tab] ++ tableName

/-- Go: `indexDatabaseKey`. -/
def indexDatabaseKey (dbName tableName : GoString) : GoString :=
  dbName ++ [tab] ++ tableName

/-! ## The cache builder -/

/-- Go: `DBRepository`, the provider interface, as the results of its calls.
The interface declaration is not among the sources; the methods are those the
builder calls. -/
structure DBRepository (E : Type) where
  CurrentSchema : Except E GoString
  Schemas : Except E (List GoString)
  SchemaTables : Except E (GoMap (List GoString))
  DescribeDatabaseTable : Except E (List ColumnDesc)
  DescribeDatabaseTableBySchema : GoString → Except E (List ColumnDesc)
  DescribeDatabaseIndexBySchema : GoString → Except E (List IndexDesc)

/-- The loop body of `genSchemaCache`: `databaseMap[strings.ToUpper(db)] = db`. -/
def schemaStep (T : CaseTables) (m : GoMap GoString) (db : GoString) : GoMap GoString :=
  mapSet m (ToUpper T db) db

/-- The loop of `genSchemaCache` over the schema names. -/
def genSchemaMap (T : CaseTables) (dbs : List GoString) : GoMap GoString :=
  dbs.foldl (schemaStep T) []

/-- Go: `DBCacheGenerator.genSchemaCache`. -/
def genSchemaCache {E : Type} (T : CaseTables) (repo : DBRepository E) :
    Except E (GoMap GoString) :=
  match repo.Schemas with
  | .error err => .error err
  | .ok dbs => .ok (genSchemaMap T dbs)

/-- The loop body of `genColumnMap`. -/
def columnStep (columnMap : GoMap (List ColumnDesc)) (desc : ColumnDesc) :
    GoMap (List ColumnDesc) :=
  let key := desc.Schema ++ [tab] ++ desc.Table
  match mapGet columnMap key with
  | some arr => mapSet columnMap key (arr ++ [desc])
  | none => mapSet columnMap key [desc]

/-- Go: `genColumnMap`. -/
def genColumnMap (columnDescs : List ColumnDesc) : GoMap (List ColumnDesc) :=
  columnDescs.foldl columnStep []

/-- The loop body of `genIndexMap`. -/
def indexStep (indexMap : GoMap (List IndexDesc)) (desc : IndexDesc) :
    GoMap (List IndexDesc) :=
  let key := desc.Schema ++ [tab] ++ desc.Table
  match mapGet indexMap key with
  | some arr => mapSet indexMap key (arr ++ [desc])
  | none => mapSet indexMap key [desc]

/-- Go: `genIndexMap`. -/
def genIndexMap (indexDescs : List IndexDesc) : GoMap (List IndexDesc) :=
  indexDescs.foldl indexStep []

/-- Go: `DBCacheGenerator.genColumnCacheCurrent`. -/
def genColumnCacheCurrent {E : Type} (repo : DBRepository E) (schemaName : GoString) :
    Except E (GoMap (List ColumnDesc)) :=
  match repo.DescribeDatabaseTableBySchema schemaName with
  | .error err => .error err
  | .ok columnDescs => .ok (genColumnMap columnDescs)

/-- Go: `DBCacheGenerator.genColumnCacheAll`. -/
def genColumnCacheAll {E : Type} (repo : DBRepository E) :
    Except E (GoMap (List ColumnDesc)) :=
  match repo.DescribeDatabaseTable with
  | .error err => .error err
  | .ok columnDescs => .ok (genColumnMap columnDescs)

/-- Go: `DBCacheGenerator.genIndexCacheCurrent`. -/
def genIndexCacheCurrent {E : Type} (repo : DBRepository E) (schemaName : GoString) :
    Except E (GoMap (List IndexDesc)) :=
  match repo.DescribeDatabaseIndexBySchema schemaName with
  | .error err => .error err
  | .ok indexDescs => .ok (genIndexMap indexDescs)

/-- Go: `DBCacheGenerator.GenerateDBCachePrimary`. -/
def GenerateDBCachePrimary {E : Type} (T : CaseTables) (repo : DBRepository E) :
    Except E DBCache :=
  match repo.CurrentSchema with
  | .error err => .error err
  | .ok defaultSchema =>
    match genSchemaCache T repo with
    | .error err => .error err
    | .ok schemas =>
      match repo.SchemaTables with
      | .error err => .error err
      | .ok schemaTables =>
        match genColumnCacheCurrent repo defaultSchema with
        | .error err => .error err
        | .ok columnsWithParent =>
          match genIndexCacheCurrent repo defaultSchema with
          | .error err => .error err
          | .ok indexWithParent =>
            .ok { defaultSchema := defaultSchema
                  Schemas := schemas
                  SchemaTables := schemaTables
                  ColumnsWithParent := columnsWithParent
                  IndexWithParent := indexWithParent }

/-- Go: `DBCacheGenerator.GenerateDBCacheSecondary`. -/
def GenerateDBCacheSecondary {E : Type} (repo : DBRepository E) :
    Except E (GoMap (List ColumnDesc)) :=
  genColumnCacheAll repo

/-! ## Query operations of the snapshot -/

/-- Go: `DBCache.Database`; a missing key gives the zero string and `false`. -/
def Database (T : CaseTables) (dc : DBCache) (dbName : GoString) : GoString × Bool :=
  match mapGet dc.Schemas (ToUpper T dbName) with
  | some db => (db, true)
  | none => ([], false)

/-- The body of `DBCache.SortedSchemas` for one enumeration `entries` of the map
`dc.Schemas` by `range`: the values are collected and sorted. -/
def sortedSchemasOf (entries : List (GoString × GoString)) : List GoString :=
  sortStrings (entries.map Prod.snd)

/-- Go: `DBCache.SortedSchemas`, with the entries enumerated as stored. -/
def SortedSchemas (dc : DBCache) : List GoString :=
  sortedSchemasOf dc.Schemas

/-- Go: `DBCache.SortedTablesByDBName`.  `sort.Strings(tbls)` sorts the slice
read from the map in place, so the sequence stored under `dbName` is sorted
too: the result is the returned pair together with the snapshot after the call. -/
def SortedTablesByDBName (dc : DBCache) (dbName : GoString) :
    (List GoString × Bool) × DBCache :=
  match mapGet dc.SchemaTables dbName with
  | some tbls =>
    ((sortStrings tbls, true),
     { dc with SchemaTables := mapSet dc.SchemaTables dbName (sortStrings tbls) })
  | none => (([], false), dc)

/-- Go: `DBCache.SortedTables`, with the snapshot after the call. -/
def SortedTables (dc : DBCache) : List GoString × DBCache :=
  let r := SortedTablesByDBName dc dc.defaultSchema
  (r.1.1, r.2)

/-- Go: `DBCache.ColumnDescs`. -/
def ColumnDescs (dc : DBCache) (tableName : GoString) : List ColumnDesc × Bool :=
  match mapGet dc.ColumnsWithParent (columnDatabaseKey dc.defaultSchema tableName) with
  | some cols => (cols, true)
  | none => ([], false)

/-- Go: `DBCache.ColumnDatabase`. -/
def ColumnDatabase (dc : DBCache) (dbName tableName : GoString) : List ColumnDesc × Bool :=
  match mapGet dc.ColumnsWithParent (columnDatabaseKey dbName tableName) with
  | some cols => (cols, true)
  | none => ([], false)

/-- The `for _, col := range cols` loop of `DBCache.Column`. -/
def columnScan (T : CaseTables) (colName : GoString) : List ColumnDesc → Option ColumnDesc × Bool
  | [] => (none, false)
  | col :: rest =>
    if EqualFold T col.Name colName then (some col, true) else columnScan T colName rest

/-- Go: `DBCache.Column`. -/
def Column (T : CaseTables) (dc : DBCache) (tableName colName : GoString) :
    Option ColumnDesc × Bool :=
  match mapGet dc.ColumnsWithParent (columnDatabaseKey dc.defaultSchema tableName) with
  | none => (none, false)
  | some cols => columnScan T colName cols

/-- Go: `DBCache.IndexDescs`. -/
def IndexDescs (dc : DBCache) (tableName : GoString) : List IndexDesc × Bool :=
  match mapGet dc.IndexWithParent (indexDatabaseKey dc.defaultSchema tableName) with
  | some idx => (idx, true)
  | none => ([], false)

/-! ## Concrete data used in examples -/

/-- A column descriptor with the given schema, table and column name. -/
def mkColumn (schema table name : String) : ColumnDesc :=
  { Schema := str schema, Table := str table, Name := str name,
    Typ := str "int", Null := str "YES", Default := none, Key := [] }

/-- A snapshot holding only a default schema and grouped columns. -/
def columnSnapshot (schema : String) (cols : List ColumnDesc) : DBCache :=
  { defaultSchema := str schema, Schemas := [], SchemaTables := [],
    ColumnsWithParent := genColumnMap cols, IndexWithParent := [] }

/-! ## Auxiliary definitions for the statements and proofs -/

/-- The common shape of the loop bodies of `genColumnMap` and `genIndexMap`,
for an arbitrary key function. -/
def groupStep {α : Type} (key : α → GoString) (m : GoMap (List α)) (d : α) :
    GoMap (List α) :=
  match mapGet m (key d) with
  | some arr => mapSet m (key d) (arr ++ [d])
  | none => mapSet m (key d) [d]

/-- The entry under `k` once the descriptors `l` with key `k` have been added to
an entry `o`. -/
def extendGroup {α : Type} : Option (List α) → List α → Option (List α)
  | o, [] => o
  | o, d :: l => some (o.getD [] ++ d :: l)

/-- An excerpt of the Unicode case tables, for concrete instances: KELVIN SIGN
(U+212A) is an upper-case letter whose lower case is `k` (U+006B), and it folds
with `K` and `k`; no other rune above ASCII is mapped. -/
def kelvinTables : CaseTables :=
  { upper := fun r => r
    lower := fun r => if r = 0x212A then 0x6B else r
    foldReaches := fun sr tr => decide ((sr = 0x4B ∨ sr = 0x6B) ∧ tr = 0x212A) }

/-- A provider whose five calls succeed, with schemas `main` and `TEMP`, default
schema `main` and the tables `b`, `a` of `main`. -/
def sampleRepo : DBRepository GoString :=
  { CurrentSchema := .ok (str "main")
    Schemas := .ok [str "main", str "TEMP"]
    SchemaTables := .ok [(str "main", [str "b", str "a"])]
    DescribeDatabaseTable := .ok [mkColumn "main" "users" "Id"]
    DescribeDatabaseTableBySchema := fun _ => .ok [mkColumn "main" "users" "Id"]
    DescribeDatabaseIndexBySchema := fun _ => .ok [] }

/-- The provider `sampleRepo` with a failing table listing. -/
def tablesFailRepo : DBRepository GoString :=
  { sampleRepo with SchemaTables := .error (str "boom") }

/-- The provider `sampleRepo` with a failing schema listing, the error being the
same as that of `tablesFailRepo`. -/
def schemasFailRepo : DBRepository GoString :=
  { sampleRepo with Schemas := .error (str "boom") }

/-- A snapshot holding only the schema index built from the schema names `L`. -/
def schemaSnapshot (T : CaseTables) (L : List GoString) : DBCache :=
  { defaultSchema := [], Schemas := genSchemaMap T L, SchemaTables := [],
    ColumnsWithParent := [], IndexWithParent := [] }

/-- A provider that returns the schema names `L` and nothing else. -/
def schemaRepo (L : List GoString) : DBRepository GoString :=
  { CurrentSchema := .ok []
    Schemas := .ok L
    SchemaTables := .ok []
    DescribeDatabaseTable := .ok []
    DescribeDatabaseTableBySchema := fun _ => .ok []
    DescribeDatabaseIndexBySchema := fun _ => .ok [] }

/-- The query operations of `DBCache`, with their arguments. -/
inductive Query where
  | Database (dbName : GoString)
  | SortedSchemas
  | SortedTablesByDBName (dbName : GoString)
  | SortedTables
  | ColumnDescs (tableName : GoString)
  | ColumnDatabase (dbName tableName : GoString)
  | Column (tableName colName : GoString)
  | IndexDescs (tableName : GoString)
deriving DecidableEq

/-- The snapshot after a query operation.  `SortedTablesByDBName`, and
`SortedTables` through it, sort a stored slice in place; the bodies of the other
operations only read the maps (`SortedSchemas` sorts a slice of its own). -/
def stateAfter (dc : DBCache) : Query → DBCache
  | .SortedTablesByDBName dbName => (SortedTablesByDBName dc dbName).2
  | .SortedTables => (SortedTables dc).2
  | _ => dc

/-- A snapshot whose table listing for `main` is stored as `b`, `a`. -/
def unsortedSnapshot : DBCache :=
  { defaultSchema := str "main", Schemas := [(str "MAIN", str "main")],
    SchemaTables := [(str "main", [str "b", str "a"]), (str "aux", [str "z", str "y"])],
    ColumnsWithParent := [], IndexWithParent := [] }

/-- The sum of the lengths of the groups stored in a map. -/
def groupTotal {α : Type} (m : GoMap (List α)) : Nat :=
  (m.map (fun p => p.2.length)).sum

/-- An index descriptor with the given schema, table and index name. -/
def mkIndex (schema table name : String) : IndexDesc :=
  { Schema := str schema, Table := str table, Name := str name,
    Typ := str "BTREE", Columns := [], Cardinality := 0 }

/-- A snapshot holding only a default schema and grouped indexes. -/
def indexSnapshot (schema : String) (idx : List IndexDesc) : DBCache :=
  { defaultSchema := str schema, Schemas := [], SchemaTables := [],
    ColumnsWithParent := [], IndexWithParent := genIndexMap idx }

/-! ## The SQLite provider (sqlite3.go) -/

/-- An error value, represented by its message. -/
abbrev GoError := GoString

/-- How a call ends without a value.  `returned err` is the return of a non-nil
`err` to the caller.  `exited err` is `log.Fatal(err)`: the process ends there,
so neither the call nor any of its callers returns; as nothing runs after it, it
passes through the callers the way a returned error passes through their
`if err != nil` returns. -/
inductive Failure where
  | returned (err : GoError)
  | exited (err : GoError)
deriving DecidableEq, Repr

/-- What `Conn.QueryContext` and the `rows.Next()` loop give the code: the error
of the query, or the rows in order, each with the outcome of its `rows.Scan`. -/
inductive QueryOutcome (Row : Type) where
  | failed (err : GoError)
  | rows (rs : List (Except GoError Row))

/-- A scanned row of `PRAGMA table_info`: the six destinations of `rows.Scan` in
`describeTable`. -/
structure TableInfoRow where
  id : Int
  name : GoString
  typ : GoString
  nonnull : Int
  dflt : Option GoString
  key : GoString
deriving DecidableEq, Repr

/-- Go: `SQLite3DBRepository`.  The connection `Conn` is represented by the
outcomes of the two queries the code sends through it: the listing of
`sqlite_master` and `PRAGMA table_info(tableName)`.  The database is taken not to
change during a build, so a query sent twice has the same outcome. -/
structure SQLite3DBRepository where
  tablesQuery : QueryOutcome GoString
  tableInfoQuery : GoString → QueryOutcome TableInfoRow

/-- Go: `SQLite3DBRepository.CurrentDatabase`. -/
def SQLite3DBRepository.CurrentDatabase (_db : SQLite3DBRepository) :
    Except Failure GoString :=
  .ok []

/-- Go: `SQLite3DBRepository.Databases`. -/
def SQLite3DBRepository.Databases (_db : SQLite3DBRepository) :
    Except Failure (List GoString) :=
  .ok []

/-- Go: `SQLite3DBRepository.CurrentSchema`. -/
def SQLite3DBRepository.CurrentSchema (db : SQLite3DBRepository) :
    Except Failure GoString :=
  db.CurrentDatabase

/-- Go: `SQLite3DBRepository.Schemas`. -/
def SQLite3DBRepository.Schemas (db : SQLite3DBRepository) :
    Except Failure (List GoString) :=
  db.Databases

/-- The `for rows.Next()` loop of `Tables`, with the slice `tables` built so far. -/
def scanTables : List (Except GoError GoString) → List GoString →
    Except Failure (List GoString)
  | [], tables => .ok tables
  | .error err :: _, _ => .error (.returned err)
  | .ok table :: rest, tables => scanTables rest (tables ++ [table])

/-- Go: `SQLite3DBRepository.Tables`. -/
def SQLite3DBRepository.Tables (db : SQLite3DBRepository) :
    Except Failure (List GoString) :=
  match db.tablesQuery with
  | .failed err => .error (.exited err)
  | .rows rs => scanTables rs []

/-- Go: `SQLite3DBRepository.SchemaTables`. -/
def SQLite3DBRepository.SchemaTables (db : SQLite3DBRepository) :
    Except Failure (GoMap (List GoString)) :=
  match db.Tables with
  | .error err => .error err
  | .ok tables => .ok [([], tables)]

/-- The descriptor `tableInfo` that one iteration of the loop of `describeTable`
appends: the zero `ColumnDesc` with the scanned fields, `Table` and `Null` set. -/
def tableInfoOf (tableName : GoString) (row : TableInfoRow) : ColumnDesc :=
  { Schema := []
    Table := tableName
    Name := row.name
    Typ := row.typ
    Null := if row.nonnull ≠ 0 then str "NO" else str "YES"
    Default := row.dflt
    Key := row.key }

/-- The `for rows.Next()` loop of `describeTable`, with the slice `tableInfos`
built so far. -/
def scanTableInfo (tableName : GoString) : List (Except GoError TableInfoRow) →
    List ColumnDesc → Except Failure (List ColumnDesc)
  | [], tableInfos => .ok tableInfos
  | .error err :: _, _ => .error (.returned err)
  | .ok row :: rest, tableInfos =>
    scanTableInfo tableName rest (tableInfos ++ [tableInfoOf tableName row])

/-- Go: `SQLite3DBRepository.describeTable`. -/
def SQLite3DBRepository.describeTable (db : SQLite3DBRepository) (tableName : GoString) :
    Except Failure (List ColumnDesc) :=
  match db.tableInfoQuery tableName with
  | .failed err => .error (.exited err)
  | .rows rs => scanTableInfo tableName rs []

/-- The `for _, table := range tables` loop of `DescribeDatabaseTable`, with the
slice `all` built so far. -/
def describeAll (db : SQLite3DBRepository) : List GoString → List ColumnDesc →
    Except Failure (List ColumnDesc)
  | [], all => .ok all
  | table :: rest, all =>
    match db.describeTable table with
    | .error err => .error err
    | .ok descs => describeAll db rest (all ++ descs)

/-- Go: `SQLite3DBRepository.DescribeDatabaseTable`. -/
def SQLite3DBRepository.DescribeDatabaseTable (db : SQLite3DBRepository) :
    Except Failure (List ColumnDesc) :=
  match db.Tables with
  | .error err => .error err
  | .ok tables => describeAll db tables []

/-- Go: `SQLite3DBRepository.DescribeDatabaseTableBySchema`. -/
def SQLite3DBRepository.DescribeDatabaseTableBySchema (db : SQLite3DBRepository)
    (_schemaName : GoString) : Except Failure (List ColumnDesc) :=
  db.DescribeDatabaseTable

/-- The message of the error of `DescribeDatabaseIndexBySchema`. -/
def notImplemented : GoError :=
  str "SQLite3DBRepository.DescribeDatabaseIndexBySchema not implemented"

/-- Go: `SQLite3DBRepository.DescribeDatabaseIndexBySchema`. -/
def SQLite3DBRepository.DescribeDatabaseIndexBySchema (_db : SQLite3DBRepository)
    (_schemaName : GoString) : Except Failure (List IndexDesc) :=
  .error (.returned notImplemented)

/-- Go: the `DBRepository` that `NewSQLite3DBRepository` returns, as seen by the
cache builder. -/
def SQLite3DBRepository.asDBRepository (db : SQLite3DBRepository) : DBRepository Failure :=
  { CurrentSchema := db.CurrentSchema
    Schemas := db.Schemas
    SchemaTables := db.SchemaTables
    DescribeDatabaseTable := db.DescribeDatabaseTable
    DescribeDatabaseTableBySchema := db.DescribeDatabaseTableBySchema
    DescribeDatabaseIndexBySchema := db.DescribeDatabaseIndexBySchema }

/-- The rows of `PRAGMA table_info(posts)` in `sampleSQLite`. -/
def postsRows : List TableInfoRow :=
  [{ id := 0, name := str "id", typ := str "INTEGER", nonnull := 1, dflt := none,
     key := str "1" },
   { id := 1, name := str "title", typ := str "TEXT", nonnull := 0, dflt := none,
     key := str "0" }]

/-- The rows of `PRAGMA table_info(users)` in `sampleSQLite`. -/
def usersRows : List TableInfoRow :=
  [{ id := 0, name := str "name", typ := str "TEXT", nonnull := 0,
     dflt := some (str "anon"), key := str "0" }]

/-- A SQLite database with the tables `posts` (columns `id`, `title`) and `users`
(column `name`); every query succeeds. -/
def sampleSQLite : SQLite3DBRepository :=
  { tablesQuery := .rows [.ok (str "posts"), .ok (str "users")]
    tableInfoQuery := fun t =>
      if t = str "posts" then .rows (postsRows.map .ok)
      else if t = str "users" then .rows (usersRows.map .ok)
      else .rows [] }

/-- The column descriptors of `sampleSQLite`, table by table. -/
def sampleSQLiteColumns : List ColumnDesc :=
  postsRows.map (tableInfoOf (str "posts")) ++ usersRows.map (tableInfoOf (str "users"))

/-- A SQLite database whose query of `sqlite_master` fails. -/
def lockedSQLite : SQLite3DBRepository :=
  { tablesQuery := .failed (str "database is locked")
    tableInfoQuery := fun _ => .rows [] }

/-- The rows of `PRAGMA table_info(tableName)` whose scan succeeds, in order. -/
def scannedRows (db : SQLite3DBRepository) (tableName : GoString) : List TableInfoRow :=
  match db.tableInfoQuery tableName with
  | .failed _ => []
  | .rows rs => rs.filterMap (fun r => match r with
      | .ok row => some row
      | .error _ => none)

/-- The database `sampleSQLite` with a failing `PRAGMA table_info(users)`. -/
def brokenPragmaSQLite : SQLite3DBRepository :=
  { tablesQuery := .rows [.ok (str "posts"), .ok (str "users")]
    tableInfoQuery := fun t =>
      if t = str "posts" then .rows (postsRows.map .ok)
      else .failed (str "syntax error") }

/-- The database `sampleSQLite` with a second row of `sqlite_master` whose scan
fails. -/
def scanErrorSQLite : SQLite3DBRepository :=
  { tablesQuery := .rows [.ok (str "posts"), .error (str "converting NULL to string")]
    tableInfoQuery := fun _ => .rows (postsRows.map .ok) }

/-! ## Lemmas on maps -/

theorem mapGet_mapSet_same {V : Type} (m : GoMap V) (k : GoString) (v : V) :
    mapGet (mapSet m k v) k = some v := by
  induction m with
  | nil => simp [mapSet, mapGet]
  | cons p rest ih =>
    obtain ⟨k', v'⟩ := p
    by_cases h : k' = k
    · simp [mapSet, mapGet, h]
    · simp [mapSet, mapGet, h, ih]

theorem mapGet_mapSet_other {V : Type} (m : GoMap V) (k k' : GoString) (v : V)
    (hne : k ≠ k') : mapGet (mapSet m k v) k' = mapGet m k' := by
  induction m with
  | nil => simp [mapSet, mapGet, hne]
  | cons p rest ih =>
    obtain ⟨k₀, v₀⟩ := p
    by_cases h : k₀ = k
    · subst h
      simp [mapSet, mapGet, hne]
    · by_cases h' : k₀ = k'
      · subst h'
        simp [mapSet, mapGet, h]
      · simp [mapSet, mapGet, h, h', ih]

/-! ## Grouping lemmas -/

theorem mapGet_groupStep {α : Type} (key : α → GoString) (m : GoMap (List α)) (d : α)
    (k : GoString) :
    mapGet (groupStep key m d) k =
      if key d = k then some ((mapGet m k).getD [] ++ [d]) else mapGet m k := by
  unfold groupStep
  by_cases h : key d = k
  · subst h
    cases hg : mapGet m (key d) <;> simp [mapGet_mapSet_same]
  · cases hg : mapGet m (key d) <;> simp [h, mapGet_mapSet_other _ _ _ _ h]

theorem mapGet_foldl_groupStep {α : Type} (key : α → GoString) (L : List α)
    (m : GoMap (List α)) (k : GoString) :
    mapGet (L.foldl (groupStep key) m) k =
      extendGroup (mapGet m k) (L.filter (fun d => key d = k)) := by
  induction L generalizing m with
  | nil => simp [extendGroup]
  | cons d rest ih =>
    rw [List.foldl_cons, ih, mapGet_groupStep]
    by_cases h : key d = k
    · simp only [h, if_true, decide_True, List.filter_cons_of_pos]
      cases rest.filter (fun d => key d = k) <;> simp [extendGroup]
    · simp [h, extendGroup]

theorem columnStep_eq_groupStep :
    columnStep = groupStep (fun d : ColumnDesc => d.Schema ++ [tab] ++ d.Table) := by
  funext m d
  unfold columnStep groupStep
  dsimp only
  cases mapGet m (d.Schema ++ [tab] ++ d.Table) <;> rfl

theorem mapGet_genColumnMap (L : List ColumnDesc) (k : GoString) :
    mapGet (genColumnMap L) k =
      extendGroup none (L.filter (fun d => d.Schema ++ [tab] ++ d.Table = k)) := by
  unfold genColumnMap
  rw [columnStep_eq_groupStep, mapGet_foldl_groupStep]
  rfl

/-! ## Schema index lemmas -/

theorem getLast?_filter_eq_some_iff {α : Type} (p : α → Bool) (L : List α) (v : α) :
    (L.filter p).getLast? = some v ↔
      ∃ pre post, L = pre ++ v :: post ∧ p v = true ∧ ∀ y ∈ post, p y = false := by
  constructor
  · induction L using List.reverseRecOn with
    | nil => intro h; simp at h
    | append_singleton init a ih =>
      intro h
      rw [List.filter_append] at h
      by_cases hp : p a = true
      · have hfa : List.filter p [a] = [a] := by simp [hp]
        rw [hfa, List.getLast?_concat] at h
        cases h
        exact ⟨init, [], rfl, hp, by simp⟩
      · have hfa : List.filter p [a] = [] := by simp [hp]
        rw [hfa, List.append_nil] at h
        obtain ⟨pre, post, hL, hv, hpost⟩ := ih h
        refine ⟨pre, post ++ [a], by simp [hL], hv, ?_⟩
        intro y hy
        rcases List.mem_append.1 hy with hy | hy
        · exact hpost y hy
        · have : y = a := by simpa using hy
          subst this
          simpa using hp
  · rintro ⟨pre, post, rfl, hv, hpost⟩
    have hfp : List.filter p post = [] := by
      rw [List.filter_eq_nil_iff]
      intro y hy
      simp [hpost y hy]
    rw [List.filter_append, List.filter_cons_of_pos hv, hfp, List.getLast?_concat]

theorem mapGet_schemaStep (T : CaseTables) (m : GoMap GoString) (d k : GoString) :
    mapGet (schemaStep T m d) k = if ToUpper T d = k then some d else mapGet m k := by
  unfold schemaStep
  by_cases h : ToUpper T d = k
  · subst h
    simp [mapGet_mapSet_same]
  · simp [h, mapGet_mapSet_other _ _ _ _ h]

theorem mapGet_foldl_schemaStep (T : CaseTables) (L : List GoString) (m : GoMap GoString)
    (k : GoString) :
    mapGet (L.foldl (schemaStep T) m) k =
      ((L.filter (fun x => ToUpper T x = k)).getLast?).or (mapGet m k) := by
  induction L generalizing m with
  | nil => simp
  | cons d rest ih =>
    rw [List.foldl_cons, ih, mapGet_schemaStep]
    by_cases h : ToUpper T d = k
    · simp only [h, if_true, decide_True, List.filter_cons_of_pos, List.getLast?_cons]
      cases (rest.filter (fun x => ToUpper T x = k)).getLast? <;> simp
    · simp [h]

theorem mapGet_genSchemaMap (T : CaseTables) (L : List GoString) (k : GoString) :
    mapGet (genSchemaMap T L) k = (L.filter (fun x => ToUpper T x = k)).getLast? := by
  unfold genSchemaMap
  rw [mapGet_foldl_schemaStep]
  simp [mapGet]

theorem schemas_of_genSchemaCache {E : Type} (T : CaseTables) (repo : DBRepository E)
    (L : List GoString) (m : GoMap GoString) (hL : repo.Schemas = .ok L)
    (hm : genSchemaCache T repo = .ok m) : m = genSchemaMap T L := by
  simp only [genSchemaCache, hL] at hm
  cases hm
  rfl

theorem unicodeToUpper_idem_ascii (T : CaseTables) (r : Nat) (hr : r ≤ 0x7F) :
    unicodeToUpper T (unicodeToUpper T r) = unicodeToUpper T r := by
  unfold unicodeToUpper
  split_ifs <;> omega

theorem unicodeToUpper_lower_ascii (T : CaseTables) (r : Nat) (hr : r ≤ 0x7F) :
    unicodeToUpper T (unicodeToLower T r) = unicodeToUpper T r := by
  unfold unicodeToUpper unicodeToLower
  split_ifs <;> omega

theorem ToUpper_idem_ascii (T : CaseTables) (s : GoString) (hs : ∀ r ∈ s, r ≤ 0x7F) :
    ToUpper T (ToUpper T s) = ToUpper T s := by
  unfold ToUpper
  rw [List.map_map]
  exact List.map_congr_left (fun r hr => unicodeToUpper_idem_ascii T r (hs r hr))

theorem ToUpper_ToLower_ascii (T : CaseTables) (s : GoString) (hs : ∀ r ∈ s, r ≤ 0x7F) :
    ToUpper T (ToLower T s) = ToUpper T s := by
  unfold ToUpper ToLower
  rw [List.map_map]
  exact List.map_congr_left (fun r hr => unicodeToUpper_lower_ascii T r (hs r hr))

theorem Database_congr (T : CaseTables) (dc : DBCache) (a b : GoString)
    (h : ToUpper T a = ToUpper T b) : Database T dc a = Database T dc b := by
  unfold Database
  rw [h]

/-! ## Column scan lemmas -/

theorem columnScan_eq_some_iff (T : CaseTables) (c : GoString) (cols : List ColumnDesc)
    (d : ColumnDesc) :
    columnScan T c cols = (some d, true) ↔
      ∃ pre post, cols = pre ++ d :: post ∧ EqualFold T d.Name c = true ∧
        ∀ x ∈ pre, EqualFold T x.Name c = false := by
  induction cols with
  | nil => simp [columnScan]
  | cons a rest ih =>
    unfold columnScan
    by_cases ha : EqualFold T a.Name c = true
    · rw [if_pos ha]
      constructor
      · intro h
        have : a = d := by simpa using h
        subst this
        exact ⟨[], rest, rfl, ha, by simp⟩
      · rintro ⟨pre, post, hcols, hd, hpre⟩
        cases pre with
        | nil =>
          have : a = d := by simpa using (List.cons.inj hcols).1
          subst this
          rfl
        | cons b pre' =>
          have hab : a = b := (List.cons.inj hcols).1
          have := hpre b (List.mem_cons_self _ _)
          rw [← hab, ha] at this
          cases this
    · rw [if_neg ha, ih]
      have ha' : EqualFold T a.Name c = false := by simpa using ha
      constructor
      · rintro ⟨pre, post, hrest, hd, hpre⟩
        refine ⟨a :: pre, post, by simp [hrest], hd, ?_⟩
        intro x hx
        rcases List.mem_cons.1 hx with hx | hx
        · subst hx; exact ha'
        · exact hpre x hx
      · rintro ⟨pre, post, hcols, hd, hpre⟩
        cases pre with
        | nil =>
          have : a = d := by simpa using (List.cons.inj hcols).1
          subst this
          rw [hd] at ha'
          cases ha'
        | cons b pre' =>
          refine ⟨pre', post, (List.cons.inj hcols).2, hd, ?_⟩
          intro x hx
          exact hpre x (List.mem_cons_of_mem _ hx)

theorem columnScan_eq_none_iff (T : CaseTables) (c : GoString) (cols : List ColumnDesc) :
    columnScan T c cols = (none, false) ↔ ∀ x ∈ cols, EqualFold T x.Name c = false := by
  induction cols with
  | nil => simp [columnScan]
  | cons a rest ih =>
    unfold columnScan
    by_cases ha : EqualFold T a.Name c = true
    · simp [ha]
    · rw [if_neg ha, ih]
      have ha' : EqualFold T a.Name c = false := by simpa using ha
      simp [ha']

theorem columnScan_total (T : CaseTables) (c : GoString) (cols : List ColumnDesc) :
    columnScan T c cols = (none, false) ∨ ∃ d, columnScan T c cols = (some d, true) := by
  induction cols with
  | nil => left; rfl
  | cons a rest ih =>
    unfold columnScan
    by_cases ha : EqualFold T a.Name c = true
    · right; exact ⟨a, by rw [if_pos ha]⟩
    · rw [if_neg ha]; exact ih

/-! ## In-place sort lemmas -/

theorem mapGet_mapSet (V : Type) (m : GoMap V) (s k : GoString) (w : V) :
    mapGet (mapSet m s w) k = if k = s then some w else mapGet m k := by
  by_cases h : k = s
  · subst h
    simp [mapGet_mapSet_same]
  · rw [if_neg h]
    exact mapGet_mapSet_other m s k w (fun h' => h h'.symm)

theorem sortStrings_sorted (xs : List GoString) : (sortStrings xs).Sorted (· ≤ ·) :=
  List.sorted_insertionSort (· ≤ ·) xs

theorem sortStrings_perm (xs : List GoString) : (sortStrings xs).Perm xs :=
  List.perm_insertionSort (· ≤ ·) xs

theorem sortStrings_eq_of_perm (xs ys : List GoString) (h : xs.Perm ys) :
    sortStrings xs = sortStrings ys :=
  List.eq_of_perm_of_sorted
    (((sortStrings_perm xs).trans h).trans (sortStrings_perm ys).symm)
    (sortStrings_sorted xs) (sortStrings_sorted ys)

theorem SchemaTables_after_sort (dc : DBCache) (s k : GoString) :
    mapGet (SortedTablesByDBName dc s).2.SchemaTables k =
      if k = s then (mapGet dc.SchemaTables k).map sortStrings
      else mapGet dc.SchemaTables k := by
  unfold SortedTablesByDBName
  cases hg : mapGet dc.SchemaTables s with
  | none =>
    by_cases h : k = s
    · subst h; simp [hg]
    · simp [h]
  | some tbls =>
    simp only [mapGet_mapSet]
    by_cases h : k = s
    · subst h; simp [hg]
    · simp [h]

/-! ## Entries of a map built by assignments -/

theorem mapSet_keys {V : Type} (m : GoMap V) (k : GoString) (v : V) :
    (mapSet m k v).map Prod.fst =
      if k ∈ m.map Prod.fst then m.map Prod.fst else m.map Prod.fst ++ [k] := by
  induction m with
  | nil => simp [mapSet]
  | cons p rest ih =>
    obtain ⟨k₀, v₀⟩ := p
    by_cases h : k₀ = k
    · subst h
      simp [mapSet]
    · have hk : ¬ k = k₀ := fun h' => h h'.symm
      simp only [mapSet, if_neg h, List.map_cons, ih, List.mem_cons, hk, false_or]
      split_ifs <;> simp

theorem mapSet_keys_nodup {V : Type} (m : GoMap V) (k : GoString) (v : V)
    (hm : (m.map Prod.fst).Nodup) : ((mapSet m k v).map Prod.fst).Nodup := by
  rw [mapSet_keys]
  split_ifs with h
  · exact hm
  · exact List.Nodup.append hm (List.nodup_singleton k) (by simpa using h)

theorem mem_iff_mapGet {V : Type} (m : GoMap V) (hm : (m.map Prod.fst).Nodup)
    (k : GoString) (v : V) : (k, v) ∈ m ↔ mapGet m k = some v := by
  induction m with
  | nil => simp [mapGet]
  | cons p rest ih =>
    obtain ⟨k₀, v₀⟩ := p
    rw [List.map_cons, List.nodup_cons] at hm
    by_cases h : k₀ = k
    · subst h
      simp only [mapGet, if_true, List.mem_cons, Prod.mk.injEq, true_and, Option.some.injEq]
      constructor
      · rintro (h | h)
        · exact h.symm
        · exact absurd (List.mem_map_of_mem Prod.fst h) hm.1
      · intro h; left; exact h.symm
    · have hk : ¬ k = k₀ := fun h' => h h'.symm
      simp only [mapGet, if_neg h, List.mem_cons, Prod.mk.injEq, hk, false_and, false_or]
      exact ih hm.2

theorem foldl_schemaStep_keys_nodup (T : CaseTables) (L : List GoString)
    (m : GoMap GoString) (hm : (m.map Prod.fst).Nodup) :
    ((L.foldl (schemaStep T) m).map Prod.fst).Nodup := by
  induction L generalizing m with
  | nil => exact hm
  | cons d rest ih => exact ih _ (mapSet_keys_nodup m _ d hm)

theorem genSchemaMap_keys_nodup (T : CaseTables) (L : List GoString) :
    ((genSchemaMap T L).map Prod.fst).Nodup :=
  foldl_schemaStep_keys_nodup T L [] List.nodup_nil

theorem mem_genSchemaMap_values (T : CaseTables) (L : List GoString) (x : GoString) :
    x ∈ (genSchemaMap T L).map Prod.snd ↔
      ∃ pre post, L = pre ++ x :: post ∧ ∀ y ∈ post, ToUpper T y ≠ ToUpper T x := by
  constructor
  · intro hx
    obtain ⟨⟨k, v⟩, hmem, hv⟩ := List.mem_map.1 hx
    simp only at hv
    subst hv
    rw [mem_iff_mapGet _ (genSchemaMap_keys_nodup T L), mapGet_genSchemaMap,
      getLast?_filter_eq_some_iff] at hmem
    obtain ⟨pre, post, hL, hv, hpost⟩ := hmem
    have hk : ToUpper T v = k := by simpa using hv
    subst hk
    refine ⟨pre, post, hL, ?_⟩
    intro y hy
    simpa using hpost y hy
  · rintro ⟨pre, post, hL, hpost⟩
    have hmem : (ToUpper T x, x) ∈ genSchemaMap T L := by
      rw [mem_iff_mapGet _ (genSchemaMap_keys_nodup T L), mapGet_genSchemaMap,
        getLast?_filter_eq_some_iff]
      refine ⟨pre, post, hL, by simp, ?_⟩
      intro y hy
      simpa using hpost y hy
    exact List.mem_map.2 ⟨_, hmem, rfl⟩

/-! ## Composite key lemmas -/

theorem compositeKey_inj (s₁ s₂ t₁ t₂ : GoString) (h₁ : tab ∉ s₁) (h₂ : tab ∉ s₂)
    (h : s₁ ++ [tab] ++ t₁ = s₂ ++ [tab] ++ t₂) : s₁ = s₂ ∧ t₁ = t₂ := by
  induction s₁ generalizing s₂ with
  | nil =>
    cases s₂ with
    | nil => exact ⟨rfl, by simpa using h⟩
    | cons b s₂' =>
      have hb : tab = b := by simpa using (List.cons.inj h).1
      exact absurd (hb ▸ List.mem_cons_self _ _) h₂
  | cons a s₁' ih =>
    cases s₂ with
    | nil =>
      have ha : a = tab := by simpa using (List.cons.inj h).1
      exact absurd (ha ▸ List.mem_cons_self _ _) h₁
    | cons b s₂' =>
      have hab : a = b := (List.cons.inj h).1
      have htl : s₁' ++ [tab] ++ t₁ = s₂' ++ [tab] ++ t₂ := (List.cons.inj h).2
      have := ih s₂' (fun hm => h₁ (List.mem_cons_of_mem _ hm))
        (fun hm => h₂ (List.mem_cons_of_mem _ hm)) htl
      exact ⟨by rw [hab, this.1], this.2⟩

/-! ## Entries of the schema index -/

theorem genSchemaMap_entry (T : CaseTables) (L : List GoString) (k v : GoString)
    (h : (k, v) ∈ genSchemaMap T L) : k = ToUpper T v ∧ v ∈ L := by
  rw [mem_iff_mapGet _ (genSchemaMap_keys_nodup T L), mapGet_genSchemaMap] at h
  have hv := List.mem_filter.1 (List.mem_of_getLast?_eq_some h)
  exact ⟨(by simpa using hv.2 : ToUpper T v = k).symm, hv.1⟩

theorem schemas_of_GenerateDBCachePrimary {E : Type} (T : CaseTables)
    (repo : DBRepository E) (dc : DBCache) (h : GenerateDBCachePrimary T repo = .ok dc) :
    genSchemaCache T repo = .ok dc.Schemas := by
  unfold GenerateDBCachePrimary at h
  cases h1 : repo.CurrentSchema with
  | error e => simp [h1] at h
  | ok d =>
    cases h2 : genSchemaCache T repo with
    | error e => simp [h1, h2] at h
    | ok schemas =>
      cases h3 : repo.SchemaTables with
      | error e => simp [h1, h2, h3] at h
      | ok tbls =>
        cases h4 : genColumnCacheCurrent repo d with
        | error e => simp [h1, h2, h3, h4] at h
        | ok cols =>
          cases h5 : genIndexCacheCurrent repo d with
          | error e => simp [h1, h2, h3, h4, h5] at h
          | ok idx =>
            simp only [h1, h2, h3, h4, h5, Except.ok.injEq] at h
            rw [← h]

theorem genSchemaMap_values_nodup (T : CaseTables) (L : List GoString) :
    ((genSchemaMap T L).map Prod.snd).Nodup := by
  have hkeys := genSchemaMap_keys_nodup T L
  refine List.Nodup.map_on ?_ (List.Nodup.of_map _ hkeys)
  rintro ⟨k₁, v₁⟩ h₁ ⟨k₂, v₂⟩ h₂ hv
  simp only at hv
  subst hv
  rw [(genSchemaMap_entry T L k₁ v₁ h₁).1, (genSchemaMap_entry T L k₂ v₁ h₂).1]

theorem SortedSchemas_schemaSnapshot_nodup (T : CaseTables) (L : List GoString) :
    (SortedSchemas (schemaSnapshot T L)).Nodup := by
  unfold SortedSchemas sortedSchemasOf
  exact (sortStrings_perm _).nodup_iff.2 (genSchemaMap_values_nodup T L)

/-! ## Groups as a partition -/

theorem indexStep_eq_groupStep :
    indexStep = groupStep (fun d : IndexDesc => d.Schema ++ [tab] ++ d.Table) := by
  funext m d
  unfold indexStep groupStep
  dsimp only
  cases mapGet m (d.Schema ++ [tab] ++ d.Table) <;> rfl

theorem mapGet_genIndexMap (L : List IndexDesc) (k : GoString) :
    mapGet (genIndexMap L) k =
      extendGroup none (L.filter (fun d => d.Schema ++ [tab] ++ d.Table = k)) := by
  unfold genIndexMap
  rw [indexStep_eq_groupStep, mapGet_foldl_groupStep]
  rfl

theorem groupStep_keys_nodup {α : Type} (key : α → GoString) (m : GoMap (List α)) (d : α)
    (hm : (m.map Prod.fst).Nodup) : ((groupStep key m d).map Prod.fst).Nodup := by
  unfold groupStep
  cases mapGet m (key d) <;> exact mapSet_keys_nodup m _ _ hm

theorem foldl_groupStep_keys_nodup {α : Type} (key : α → GoString) (L : List α)
    (m : GoMap (List α)) (hm : (m.map Prod.fst).Nodup) :
    ((L.foldl (groupStep key) m).map Prod.fst).Nodup := by
  induction L generalizing m with
  | nil => exact hm
  | cons d rest ih => exact ih _ (groupStep_keys_nodup key m d hm)

theorem groupTotal_mapSet_absent {α : Type} (m : GoMap (List α)) (k : GoString)
    (v : List α) (h : mapGet m k = none) :
    groupTotal (mapSet m k v) = groupTotal m + v.length := by
  induction m with
  | nil => simp [mapSet, groupTotal]
  | cons p rest ih =>
    obtain ⟨k₀, v₀⟩ := p
    by_cases hk : k₀ = k
    · simp [mapGet, hk] at h
    · simp only [mapGet, if_neg hk] at h
      have := ih h
      simp only [groupTotal, mapSet, if_neg hk, List.map_cons, List.sum_cons] at this ⊢
      omega

theorem groupTotal_mapSet_present {α : Type} (m : GoMap (List α)) (k : GoString)
    (arr v : List α) (h : mapGet m k = some arr) :
    groupTotal (mapSet m k v) + arr.length = groupTotal m + v.length := by
  induction m with
  | nil => simp [mapGet] at h
  | cons p rest ih =>
    obtain ⟨k₀, v₀⟩ := p
    by_cases hk : k₀ = k
    · simp only [mapGet, if_pos hk, Option.some.injEq] at h
      subst h
      simp only [groupTotal, mapSet, if_pos hk, List.map_cons, List.sum_cons]
      omega
    · simp only [mapGet, if_neg hk] at h
      have := ih h
      simp only [groupTotal, mapSet, if_neg hk, List.map_cons, List.sum_cons] at this ⊢
      omega

theorem groupTotal_groupStep {α : Type} (key : α → GoString) (m : GoMap (List α)) (d : α) :
    groupTotal (groupStep key m d) = groupTotal m + 1 := by
  unfold groupStep
  cases h : mapGet m (key d) with
  | none => simpa using groupTotal_mapSet_absent m (key d) [d] h
  | some arr =>
    have := groupTotal_mapSet_present m (key d) arr (arr ++ [d]) h
    simp only [List.length_append, List.length_singleton] at this
    simp only
    omega

theorem groupTotal_foldl_groupStep {α : Type} (key : α → GoString) (L : List α)
    (m : GoMap (List α)) :
    groupTotal (L.foldl (groupStep key) m) = groupTotal m + L.length := by
  induction L generalizing m with
  | nil => simp
  | cons d rest ih =>
    rw [List.foldl_cons, ih, groupTotal_groupStep, List.length_cons]
    omega

theorem foldl_groupStep_entry {α : Type} (key : α → GoString) (L : List α)
    (k : GoString) (g : List α) (h : (k, g) ∈ L.foldl (groupStep key) []) :
    g ≠ [] ∧ g = L.filter (fun d => key d = k) := by
  rw [mem_iff_mapGet _ (foldl_groupStep_keys_nodup key L [] List.nodup_nil),
    mapGet_foldl_groupStep] at h
  cases hf : L.filter (fun d => key d = k) with
  | nil => simp [hf, extendGroup, mapGet] at h
  | cons d l =>
    rw [hf] at h
    simp only [extendGroup, mapGet, Option.getD_none, List.nil_append,
      Option.some.injEq] at h
    exact ⟨by rw [← h]; simp, h.symm⟩

theorem mapSet_mapSet {V : Type} (m : GoMap V) (k : GoString) (v w : V) :
    mapSet (mapSet m k v) k w = mapSet m k w := by
  induction m with
  | nil => simp [mapSet]
  | cons p rest ih =>
    obtain ⟨k₀, v₀⟩ := p
    by_cases hk : k₀ = k
    · simp [mapSet, hk]
    · simp [mapSet, hk, ih]

theorem sortStrings_idem (xs : List GoString) : sortStrings (sortStrings xs) = sortStrings xs :=
  List.Sorted.insertionSort_eq (sortStrings_sorted xs)

theorem SortedTablesByDBName_twice (dc : DBCache) (s : GoString) :
    SortedTablesByDBName (SortedTablesByDBName dc s).2 s = SortedTablesByDBName dc s := by
  unfold SortedTablesByDBName
  cases hg : mapGet dc.SchemaTables s with
  | none => simp [hg]
  | some tbls => simp [mapGet_mapSet_same, sortStrings_idem, mapSet_mapSet]

/-! ## SQLite provider lemmas -/

theorem scanTables_not_exited (rs : List (Except GoError GoString)) (acc : List GoString)
    (e : GoError) : scanTables rs acc ≠ .error (.exited e) := by
  induction rs generalizing acc with
  | nil => simp [scanTables]
  | cons r rest ih =>
    cases r with
    | error err => simp [scanTables]
    | ok table => simpa [scanTables] using ih (acc ++ [table])

theorem scanTableInfo_not_exited (t : GoString) (rs : List (Except GoError TableInfoRow))
    (acc : List ColumnDesc) (e : GoError) :
    scanTableInfo t rs acc ≠ .error (.exited e) := by
  induction rs generalizing acc with
  | nil => simp [scanTableInfo]
  | cons r rest ih =>
    cases r with
    | error err => simp [scanTableInfo]
    | ok row => simpa [scanTableInfo] using ih (acc ++ [tableInfoOf t row])

theorem scanTableInfo_ok (t : GoString) (rs : List (Except GoError TableInfoRow))
    (acc infos : List ColumnDesc) (h : scanTableInfo t rs acc = .ok infos) :
    ∃ rows : List TableInfoRow,
      rs = rows.map .ok ∧ infos = acc ++ rows.map (tableInfoOf t) := by
  induction rs generalizing acc with
  | nil =>
    simp only [scanTableInfo, Except.ok.injEq] at h
    exact ⟨[], rfl, by simp [h]⟩
  | cons r rest ih =>
    cases r with
    | error err => simp [scanTableInfo] at h
    | ok row =>
      simp only [scanTableInfo] at h
      obtain ⟨rows, hrest, hinfos⟩ := ih _ h
      exact ⟨row :: rows, by simp [hrest], by simp [hinfos]⟩

theorem Tables_exited (db : SQLite3DBRepository) (e : GoError)
    (h : db.Tables = .error (.exited e)) : db.tablesQuery = .failed e := by
  unfold SQLite3DBRepository.Tables at h
  cases hq : db.tablesQuery with
  | failed err =>
    rw [hq] at h
    simp only [Except.error.injEq, Failure.exited.injEq] at h
    rw [h]
  | rows rs =>
    rw [hq] at h
    exact absurd h (scanTables_not_exited rs [] e)

theorem Tables_not_exited (db : SQLite3DBRepository)
    (h : ∀ err, db.tablesQuery ≠ .failed err) (e : GoError) :
    db.Tables ≠ .error (.exited e) :=
  fun hT => h e (Tables_exited db e hT)

theorem describeTable_exited (db : SQLite3DBRepository) (t : GoString) (e : GoError)
    (h : db.describeTable t = .error (.exited e)) : db.tableInfoQuery t = .failed e := by
  unfold SQLite3DBRepository.describeTable at h
  cases hq : db.tableInfoQuery t with
  | failed err =>
    rw [hq] at h
    simp only [Except.error.injEq, Failure.exited.injEq] at h
    rw [h]
  | rows rs =>
    rw [hq] at h
    exact absurd h (scanTableInfo_not_exited t rs [] e)

theorem filterMap_ok_rows (rows : List TableInfoRow) :
    (rows.map (Except.ok : TableInfoRow → Except GoError TableInfoRow)).filterMap
      (fun r => match r with
        | .ok row => some row
        | .error _ => none) = rows := by
  induction rows with
  | nil => rfl
  | cons a l ih =>
    rw [List.map_cons, List.filterMap_cons]
    simp only
    rw [ih]

theorem describeTable_ok (db : SQLite3DBRepository) (t : GoString) (descs : List ColumnDesc)
    (h : db.describeTable t = .ok descs) :
    db.tableInfoQuery t = .rows ((scannedRows db t).map .ok) ∧
    descs = (scannedRows db t).map (tableInfoOf t) := by
  unfold SQLite3DBRepository.describeTable at h
  unfold scannedRows
  cases hq : db.tableInfoQuery t with
  | failed err => simp [hq] at h
  | rows rs =>
    rw [hq] at h
    obtain ⟨rows, hrs, hdescs⟩ := scanTableInfo_ok t rs [] descs h
    subst hrs
    simp only [filterMap_ok_rows]
    exact ⟨trivial, by simpa using hdescs⟩

theorem describeAll_exited (db : SQLite3DBRepository) (ts : List GoString)
    (acc : List ColumnDesc) (e : GoError)
    (h : describeAll db ts acc = .error (.exited e)) :
    ∃ t, db.tableInfoQuery t = .failed e := by
  induction ts generalizing acc with
  | nil => simp [describeAll] at h
  | cons t rest ih =>
    unfold describeAll at h
    cases hd : db.describeTable t with
    | error f =>
      rw [hd] at h
      simp only [Except.error.injEq] at h
      subst h
      exact ⟨t, describeTable_exited db t e hd⟩
    | ok descs =>
      rw [hd] at h
      exact ih _ h

theorem describeAll_ok (db : SQLite3DBRepository) (ts : List GoString)
    (acc all : List ColumnDesc) (h : describeAll db ts acc = .ok all) :
    (∀ t ∈ ts, db.tableInfoQuery t = .rows ((scannedRows db t).map .ok)) ∧
    all = acc ++ ts.flatMap (fun t => (scannedRows db t).map (tableInfoOf t)) := by
  induction ts generalizing acc with
  | nil =>
    simp only [describeAll, Except.ok.injEq] at h
    simp [h]
  | cons t rest ih =>
    unfold describeAll at h
    cases hd : db.describeTable t with
    | error f => simp [hd] at h
    | ok descs =>
      rw [hd] at h
      obtain ⟨hq, hdescs⟩ := describeTable_ok db t descs hd
      obtain ⟨hrest, hall⟩ := ih _ h
      refine ⟨?_, ?_⟩
      · intro t' ht'
        rcases List.mem_cons.1 ht' with ht' | ht'
        · subst ht'; exact hq
        · exact hrest t' ht'
      · rw [hall, hdescs, List.flatMap_cons, List.append_assoc]

theorem sqlite_generate_eq (T : CaseTables) (db : SQLite3DBRepository) :
    GenerateDBCachePrimary T db.asDBRepository =
      match db.Tables with
      | .error f => .error f
      | .ok _ =>
        match db.DescribeDatabaseTable with
        | .error f => .error f
        | .ok _ => .error (.returned notImplemented) := by
  simp only [GenerateDBCachePrimary, genSchemaCache, genColumnCacheCurrent,
    genIndexCacheCurrent, SQLite3DBRepository.asDBRepository,
    SQLite3DBRepository.CurrentSchema, SQLite3DBRepository.CurrentDatabase,
    SQLite3DBRepository.Schemas, SQLite3DBRepository.Databases,
    SQLite3DBRepository.SchemaTables, SQLite3DBRepository.DescribeDatabaseTableBySchema,
    SQLite3DBRepository.DescribeDatabaseIndexBySchema]
  cases db.Tables with
  | error f => rfl
  | ok tables =>
    cases db.DescribeDatabaseTable with
    | error f => rfl
    | ok cols => rfl

theorem filter_flatMap_table (f : GoString → List ColumnDesc) (ts : List GoString)
    (t : GoString) (hf : ∀ t', ∀ d ∈ f t', d.Table = t') (hnd : ts.Nodup) (ht : t ∈ ts) :
    (ts.flatMap f).filter (fun d => d.Table = t) = f t := by
  induction ts with
  | nil => simp at ht
  | cons a rest ih =>
    rw [List.nodup_cons] at hnd
    rw [List.flatMap_cons, List.filter_append]
    have hother : ∀ l : List GoString, t ∉ l →
        (l.flatMap f).filter (fun d => d.Table = t) = [] := by
      intro l hl
      rw [List.filter_eq_nil_iff]
      intro d hd
      obtain ⟨t', ht', hd'⟩ := List.mem_flatMap.1 hd
      have : d.Table = t' := hf t' d hd'
      simp only [decide_eq_true_eq]
      intro hdt
      exact hl (hdt ▸ this ▸ ht')
    by_cases hat : a = t
    · subst hat
      have hself : (f a).filter (fun d => d.Table = a) = f a := by
        rw [List.filter_eq_self]
        intro d hd
        simp [hf a d hd]
      rw [hself, hother rest hnd.1, List.append_nil]
    · have hin : t ∈ rest := by
        rcases List.mem_cons.1 ht with h | h
        · exact absurd h.symm hat
        · exact h
      have hnone : (f a).filter (fun d => d.Table = t) = [] := by
        rw [List.filter_eq_nil_iff]
        intro d hd
        simp only [decide_eq_true_eq]
        intro hdt
        exact hat ((hf a d hd).symm.trans hdt)
      rw [hnone, List.nil_append, ih hnd.2 hin]

/-! ## Lookups of the schema index -/

theorem Database_found_key (T : CaseTables) (dc : DBCache) (L : List GoString)
    (hm : dc.Schemas = genSchemaMap T L) (q v : GoString)
    (h : Database T dc q = (v, true)) : ToUpper T v = ToUpper T q ∧ v ∈ L := by
  unfold Database at h
  rw [hm, mapGet_genSchemaMap] at h
  cases hg : (L.filter (fun x => ToUpper T x = ToUpper T q)).getLast? with
  | none => rw [hg] at h; simp at h
  | some w =>
    rw [hg] at h
    have hwv : w = v := by simpa using h
    subst hwv
    have hw := List.mem_filter.1 (List.mem_of_getLast?_eq_some hg)
    exact ⟨by simpa using hw.2, hw.1⟩

theorem Database_found_of_mem (T : CaseTables) (dc : DBCache) (L : List GoString)
    (hm : dc.Schemas = genSchemaMap T L) (s : GoString) (hs : s ∈ L) :
    ∃ v, Database T dc s = (v, true) := by
  unfold Database
  rw [hm, mapGet_genSchemaMap]
  have hne : L.filter (fun x => ToUpper T x = ToUpper T s) ≠ [] := by
    intro h
    rw [List.filter_eq_nil_iff] at h
    exact h s hs (by simp)
  cases hg : (L.filter (fun x => ToUpper T x = ToUpper T s)).getLast? with
  | none => exact absurd (List.getLast?_eq_none_iff.1 hg) hne
  | some v => exact ⟨v, rfl⟩

theorem ToUpper_idem (T : CaseTables)
    (hup : ∀ r, unicodeToUpper T (unicodeToUpper T r) = unicodeToUpper T r)
    (s : GoString) : ToUpper T (ToUpper T s) = ToUpper T s := by
  unfold ToUpper
  rw [List.map_map]
  exact List.map_congr_left (fun r _ => hup r)

theorem kelvinTables_upper_idem (r : Nat) :
    unicodeToUpper kelvinTables (unicodeToUpper kelvinTables r)
      = unicodeToUpper kelvinTables r := by
  by_cases hr : r ≤ 0x7F
  · exact unicodeToUpper_idem_ascii kelvinTables r hr
  · have h1 : unicodeToUpper kelvinTables r = r := by
      unfold unicodeToUpper
      rw [if_neg hr]
      rfl
    rw [h1, h1]

/-! ## Outcomes of the SQLite build -/

theorem scanTables_rows (names : List GoString) (acc : List GoString) :
    scanTables (names.map .ok) acc = .ok (acc ++ names) := by
  induction names generalizing acc with
  | nil => simp [scanTables]
  | cons a l ih =>
    rw [List.map_cons]
    unfold scanTables
    rw [ih]
    simp

theorem scanTables_scan_error (names : List GoString) (err : GoError)
    (rest : List (Except GoError GoString)) (acc : List GoString) :
    scanTables (names.map .ok ++ .error err :: rest) acc = .error (.returned err) := by
  induction names generalizing acc with
  | nil => simp [scanTables]
  | cons a l ih =>
    rw [List.map_cons, List.cons_append]
    unfold scanTables
    exact ih _

theorem scanTableInfo_rows (t : GoString) (rows : List TableInfoRow)
    (acc : List ColumnDesc) :
    scanTableInfo t (rows.map .ok) acc = .ok (acc ++ rows.map (tableInfoOf t)) := by
  induction rows generalizing acc with
  | nil => simp [scanTableInfo]
  | cons a l ih =>
    rw [List.map_cons]
    unfold scanTableInfo
    rw [ih]
    simp

theorem scanTableInfo_scan_error (t : GoString) (rows : List TableInfoRow) (err : GoError)
    (rest : List (Except GoError TableInfoRow)) (acc : List ColumnDesc) :
    scanTableInfo t (rows.map .ok ++ .error err :: rest) acc = .error (.returned err) := by
  induction rows generalizing acc with
  | nil => simp [scanTableInfo]
  | cons a l ih =>
    rw [List.map_cons, List.cons_append]
    unfold scanTableInfo
    exact ih _

theorem Tables_of_rows (db : SQLite3DBRepository) (tables : List GoString)
    (h : db.tablesQuery = .rows (tables.map .ok)) : db.Tables = .ok tables := by
  unfold SQLite3DBRepository.Tables
  rw [h]
  simpa using scanTables_rows tables []

theorem describeTable_of_rows (db : SQLite3DBRepository) (t : GoString)
    (rows : List TableInfoRow) (h : db.tableInfoQuery t = .rows (rows.map .ok)) :
    db.describeTable t = .ok (rows.map (tableInfoOf t)) := by
  unfold SQLite3DBRepository.describeTable
  rw [h]
  simpa using scanTableInfo_rows t rows []

theorem describeAll_cons (db : SQLite3DBRepository) (t : GoString) (rest : List GoString)
    (acc : List ColumnDesc) :
    describeAll db (t :: rest) acc =
      match db.describeTable t with
      | .error err => .error err
      | .ok descs => describeAll db rest (acc ++ descs) := rfl

theorem describeAll_prefix (db : SQLite3DBRepository) (pre rest : List GoString)
    (acc : List ColumnDesc)
    (hpre : ∀ t ∈ pre, ∃ rows : List TableInfoRow, db.tableInfoQuery t = .rows (rows.map .ok)) :
    ∃ acc', describeAll db (pre ++ rest) acc = describeAll db rest acc' := by
  induction pre generalizing acc with
  | nil => exact ⟨acc, rfl⟩
  | cons t pre' ih =>
    obtain ⟨rows, hrows⟩ := hpre t (List.mem_cons_self _ _)
    have hd := describeTable_of_rows db t rows hrows
    obtain ⟨acc', hacc'⟩ := ih (acc ++ rows.map (tableInfoOf t))
      (fun t' ht' => hpre t' (List.mem_cons_of_mem _ ht'))
    refine ⟨acc', ?_⟩
    rw [List.cons_append, describeAll_cons, hd]
    exact hacc'

theorem describeAll_first_failure (db : SQLite3DBRepository) (pre post : List GoString)
    (t : GoString) (f : Failure)
    (hpre : ∀ t' ∈ pre, ∃ rows : List TableInfoRow,
      db.tableInfoQuery t' = .rows (rows.map .ok))
    (ht : db.describeTable t = .error f) :
    describeAll db (pre ++ t :: post) [] = .error f := by
  obtain ⟨acc', hacc'⟩ := describeAll_prefix db pre (t :: post) [] hpre
  rw [hacc', describeAll_cons, ht]

theorem describeAll_all_rows (db : SQLite3DBRepository) (tables : List GoString)
    (h : ∀ t ∈ tables, ∃ rows : List TableInfoRow,
      db.tableInfoQuery t = .rows (rows.map .ok)) :
    ∃ all, describeAll db tables [] = .ok all := by
  obtain ⟨acc', hacc'⟩ := describeAll_prefix db tables [] [] h
  rw [List.append_nil] at hacc'
  exact ⟨acc', by rw [hacc']; rfl⟩

theorem sqlite_generate_of_describe_failure (T : CaseTables) (db : SQLite3DBRepository)
    (tables pre post : List GoString) (t : GoString) (f : Failure)
    (hq : db.tablesQuery = .rows (tables.map .ok)) (htables : tables = pre ++ t :: post)
    (hpre : ∀ t' ∈ pre, ∃ rows : List TableInfoRow,
      db.tableInfoQuery t' = .rows (rows.map .ok))
    (ht : db.describeTable t = .error f) :
    GenerateDBCachePrimary T db.asDBRepository = .error f := by
  have hT := Tables_of_rows db tables hq
  have hD : db.DescribeDatabaseTable = .error f := by
    unfold SQLite3DBRepository.DescribeDatabaseTable
    rw [hT, htables]
    exact describeAll_first_failure db pre post t f hpre ht
  rw [sqlite_generate_eq, hT, hD]

/-! ## Claims -/

/-- C1. Grouping correctness of `genColumnMap`: the map built from a list `L` of
column descriptors has an entry at `k` exactly when some descriptor of `L` has
the composite key `k`, and the lookup at `k` is then the sub-list of `L` of the
descriptors with that key, in the order of `L` (and is absent otherwise).  For
the columns `(s,t1,c1), (s,t1,c2), (s,t2,c3)` and default schema `s`,
`ColumnDescs` gives `[c1, c2]` for `t1` and `[c3]` for `t2`. -/
theorem genColumnMap_grouping (L : List ColumnDesc) (k : GoString) :
    ((mapGet (genColumnMap L) k).isSome = true ↔
        ∃ d ∈ L, d.Schema ++ [tab] ++ d.Table = k) ∧
    mapGet (genColumnMap L) k =
      (if L.filter (fun d => d.Schema ++ [tab] ++ d.Table = k) = [] then none
       else some (L.filter (fun d => d.Schema ++ [tab] ++ d.Table = k))) ∧
    ColumnDescs (columnSnapshot "s"
        [mkColumn "s" "t1" "c1", mkColumn "s" "t1" "c2", mkColumn "s" "t2" "c3"]) (str "t1")
      = ([mkColumn "s" "t1" "c1", mkColumn "s" "t1" "c2"], true) ∧
    ColumnDescs (columnSnapshot "s"
        [mkColumn "s" "t1" "c1", mkColumn "s" "t1" "c2", mkColumn "s" "t2" "c3"]) (str "t2")
      = ([mkColumn "s" "t2" "c3"], true) := by
  have hget := mapGet_genColumnMap L k
  refine ⟨?_, ?_, by decide, by decide⟩
  · rw [hget]
    cases hf : L.filter (fun d => d.Schema ++ [tab] ++ d.Table = k) with
    | nil =>
      rw [List.filter_eq_nil_iff] at hf
      constructor
      · intro h; simp [extendGroup] at h
      · rintro ⟨d, hd, hk⟩
        exact absurd (by simpa using hk) (hf d hd)
    | cons d l =>
      have hd : d ∈ L.filter (fun d => d.Schema ++ [tab] ++ d.Table = k) := by
        rw [hf]
        exact List.mem_cons_self _ _
      rw [List.mem_filter] at hd
      constructor
      · intro _
        exact ⟨d, hd.1, by simpa using hd.2⟩
      · intro _; simp [extendGroup]
  · rw [hget]
    cases hf : L.filter (fun d => d.Schema ++ [tab] ++ d.Table = k) <;> simp [extendGroup]

/-- C2. `GenerateDBCachePrimary` is all-or-nothing and fail-fast: it returns a
snapshot exactly when `CurrentSchema`, `Schemas`, `SchemaTables` and the two
fetches scoped to the current schema all succeed; otherwise it returns no
snapshot and the error of the first failing call in that order, whatever the
later calls return. -/
theorem GenerateDBCachePrimary_all_or_nothing {E : Type} (T : CaseTables)
    (repo : DBRepository E) :
    ((∃ dc, GenerateDBCachePrimary T repo = .ok dc) ↔
      ∃ d dbs tbls cols idx, repo.CurrentSchema = .ok d ∧ repo.Schemas = .ok dbs ∧
        repo.SchemaTables = .ok tbls ∧ repo.DescribeDatabaseTableBySchema d = .ok cols ∧
        repo.DescribeDatabaseIndexBySchema d = .ok idx) ∧
    (∀ e, repo.CurrentSchema = .error e → GenerateDBCachePrimary T repo = .error e) ∧
    (∀ d e, repo.CurrentSchema = .ok d → repo.Schemas = .error e →
      GenerateDBCachePrimary T repo = .error e) ∧
    (∀ d dbs e, repo.CurrentSchema = .ok d → repo.Schemas = .ok dbs →
      repo.SchemaTables = .error e → GenerateDBCachePrimary T repo = .error e) ∧
    (∀ d dbs tbls e, repo.CurrentSchema = .ok d → repo.Schemas = .ok dbs →
      repo.SchemaTables = .ok tbls → repo.DescribeDatabaseTableBySchema d = .error e →
      GenerateDBCachePrimary T repo = .error e) ∧
    (∀ d dbs tbls cols e, repo.CurrentSchema = .ok d → repo.Schemas = .ok dbs →
      repo.SchemaTables = .ok tbls → repo.DescribeDatabaseTableBySchema d = .ok cols →
      repo.DescribeDatabaseIndexBySchema d = .error e →
      GenerateDBCachePrimary T repo = .error e) := by
  refine ⟨?_, ?_, ?_, ?_, ?_, ?_⟩
  · constructor
    · rintro ⟨dc, h⟩
      unfold GenerateDBCachePrimary genSchemaCache genColumnCacheCurrent
        genIndexCacheCurrent at h
      cases h1 : repo.CurrentSchema with
      | error e => simp [h1] at h
      | ok d =>
        cases h2 : repo.Schemas with
        | error e => simp [h1, h2] at h
        | ok dbs =>
          cases h3 : repo.SchemaTables with
          | error e => simp [h1, h2, h3] at h
          | ok tbls =>
            cases h4 : repo.DescribeDatabaseTableBySchema d with
            | error e => simp [h1, h2, h3, h4] at h
            | ok cols =>
              cases h5 : repo.DescribeDatabaseIndexBySchema d with
              | error e => simp [h1, h2, h3, h4, h5] at h
              | ok idx => exact ⟨d, dbs, tbls, cols, idx, rfl, rfl, rfl, h4, h5⟩
    · rintro ⟨d, dbs, tbls, cols, idx, h1, h2, h3, h4, h5⟩
      simp [GenerateDBCachePrimary, genSchemaCache, genColumnCacheCurrent,
        genIndexCacheCurrent, h1, h2, h3, h4, h5]
  · intro e h1
    simp [GenerateDBCachePrimary, h1]
  · intro d e h1 h2
    simp [GenerateDBCachePrimary, genSchemaCache, h1, h2]
  · intro d dbs e h1 h2 h3
    simp [GenerateDBCachePrimary, genSchemaCache, h1, h2, h3]
  · intro d dbs tbls e h1 h2 h3 h4
    simp [GenerateDBCachePrimary, genSchemaCache, genColumnCacheCurrent, h1, h2, h3, h4]
  · intro d dbs tbls cols e h1 h2 h3 h4 h5
    simp [GenerateDBCachePrimary, genSchemaCache, genColumnCacheCurrent,
      genIndexCacheCurrent, h1, h2, h3, h4, h5]

/-- C2, at a concrete provider: the table listing fails, the two later fetches
would succeed, and the build returns the error of the table listing. -/
theorem GenerateDBCachePrimary_all_or_nothing_witness :
    GenerateDBCachePrimary kelvinTables tablesFailRepo = .error (str "boom") :=
  (GenerateDBCachePrimary_all_or_nothing kelvinTables tablesFailRepo).2.2.2.1
    (str "main") [str "main", str "TEMP"] (str "boom") rfl rfl rfl

/-- C3, as stated, fails above ASCII: with the single schema KELVIN SIGN (U+212A)
registered, the lookup of the name itself finds it, and the lookup of its lower
case `k` does not (`strings.ToUpper` of `k` is `K`, not U+212A). -/
theorem Database_lower_case_not_found :
    Database kelvinTables (schemaSnapshot kelvinTables [[0x212A]]) [0x212A]
      = ([0x212A], true) ∧
    ToLower kelvinTables [0x212A] = str "k" ∧
    Database kelvinTables (schemaSnapshot kelvinTables [[0x212A]])
      (ToLower kelvinTables [0x212A]) = ([], false) ∧
    Database kelvinTables (schemaSnapshot kelvinTables [[0x212A]])
      (ToLower kelvinTables [0x212A])
      ≠ Database kelvinTables (schemaSnapshot kelvinTables [[0x212A]]) [0x212A] := by
  decide

/-- C3, amended. Go's simple upper-casing is idempotent (`hup`, a fact of the
Unicode tables).  On the schema index built from the provider's names `L`, for
every name `s` of `L`: `Database(s)` returns found; `Database(strings.ToUpper(s))`
returns the same pair as `Database(s)`; and `Database(strings.ToLower(s))`
returns that pair exactly when the upper case of the lower case of `s` is the
upper case of `s`, which is so for every ASCII name. -/
theorem Database_case_insensitive {E : Type} (T : CaseTables) (repo : DBRepository E)
    (dc : DBCache) (L : List GoString) (s : GoString)
    (hup : ∀ r, unicodeToUpper T (unicodeToUpper T r) = unicodeToUpper T r)
    (hL : repo.Schemas = .ok L) (hdc : genSchemaCache T repo = .ok dc.Schemas)
    (hs : s ∈ L) :
    (Database T dc s).2 = true ∧
    Database T dc (ToUpper T s) = Database T dc s ∧
    (Database T dc (ToLower T s) = Database T dc s ↔
      ToUpper T (ToLower T s) = ToUpper T s) ∧
    ((∀ r ∈ s, r ≤ 0x7F) → Database T dc (ToLower T s) = Database T dc s) := by
  have hm := schemas_of_genSchemaCache T repo L dc.Schemas hL hdc
  obtain ⟨v, hv⟩ := Database_found_of_mem T dc L hm s hs
  refine ⟨by rw [hv], Database_congr T dc _ _ (ToUpper_idem T hup s), ?_,
    fun h => Database_congr T dc _ _ (ToUpper_ToLower_ascii T s h)⟩
  constructor
  · intro h
    rw [hv] at h
    have h1 := (Database_found_key T dc L hm (ToLower T s) v h).1
    have h2 := (Database_found_key T dc L hm s v hv).1
    rw [← h1, h2]
  · intro h
    exact Database_congr T dc _ _ h

/-- C3, amended, at concrete inputs: with the schemas `main`, `TEMP` and KELVIN
SIGN registered, the upper-cased lookups of `main` and of KELVIN SIGN and the
lower-cased lookup of `main` return what the lookups of the names return. -/
theorem Database_case_insensitive_witness :
    Database kelvinTables (schemaSnapshot kelvinTables [str "main", str "TEMP", [0x212A]])
        (ToUpper kelvinTables (str "main"))
      = (str "main", true) ∧
    Database kelvinTables (schemaSnapshot kelvinTables [str "main", str "TEMP", [0x212A]])
        (ToLower kelvinTables (str "main"))
      = (str "main", true) ∧
    Database kelvinTables (schemaSnapshot kelvinTables [str "main", str "TEMP", [0x212A]])
        (ToUpper kelvinTables [0x212A])
      = ([0x212A], true) :=
  have hmain := Database_case_insensitive kelvinTables
    (schemaRepo [str "main", str "TEMP", [0x212A]])
    (schemaSnapshot kelvinTables [str "main", str "TEMP", [0x212A]])
    [str "main", str "TEMP", [0x212A]] (str "main") kelvinTables_upper_idem rfl rfl
    (by decide)
  have hkelvin := Database_case_insensitive kelvinTables
    (schemaRepo [str "main", str "TEMP", [0x212A]])
    (schemaSnapshot kelvinTables [str "main", str "TEMP", [0x212A]])
    [str "main", str "TEMP", [0x212A]] [0x212A] kelvinTables_upper_idem rfl rfl
    (by decide)
  ⟨hmain.2.1.trans (by decide), (hmain.2.2.2 (by decide)).trans (by decide),
   hkelvin.2.1.trans (by decide)⟩

/-- C4. `Column` is first-match-wins under `strings.EqualFold`: `Column(t, c)`
returns `(d, true)` exactly when the column list stored under
`columnDatabaseKey(defaultSchema, t)` splits as `pre ++ d :: post` with `d.Name`
fold-equal to `c` and no descriptor of `pre` fold-equal to `c`; it returns
`(nil, false)` exactly when the key is absent or no stored descriptor matches;
and it returns nothing else.  With the columns `Id` and `ID` registered in that
order for the table `users`, `Column("users", "id")` and `Column("users", "ID")`
both return the descriptor `Id`. -/
theorem Column_first_match (T : CaseTables) (dc : DBCache) (t c : GoString) :
    (∀ d, Column T dc t c = (some d, true) ↔
      ∃ cols pre post,
        mapGet dc.ColumnsWithParent (columnDatabaseKey dc.defaultSchema t) = some cols ∧
        cols = pre ++ d :: post ∧ EqualFold T d.Name c = true ∧
        ∀ x ∈ pre, EqualFold T x.Name c = false) ∧
    (Column T dc t c = (none, false) ↔
      mapGet dc.ColumnsWithParent (columnDatabaseKey dc.defaultSchema t) = none ∨
      ∃ cols,
        mapGet dc.ColumnsWithParent (columnDatabaseKey dc.defaultSchema t) = some cols ∧
        ∀ x ∈ cols, EqualFold T x.Name c = false) ∧
    (Column T dc t c = (none, false) ∨ ∃ d, Column T dc t c = (some d, true)) ∧
    Column T (columnSnapshot "main" [mkColumn "main" "users" "Id", mkColumn "main" "users" "ID"])
        (str "users") (str "id") = (some (mkColumn "main" "users" "Id"), true) ∧
    Column T (columnSnapshot "main" [mkColumn "main" "users" "Id", mkColumn "main" "users" "ID"])
        (str "users") (str "ID") = (some (mkColumn "main" "users" "Id"), true) := by
  refine ⟨?_, ?_, ?_, rfl, rfl⟩
  · intro d
    unfold Column
    cases hg : mapGet dc.ColumnsWithParent (columnDatabaseKey dc.defaultSchema t) with
    | none => simp
    | some cols =>
      simp only [columnScan_eq_some_iff, Option.some.injEq]
      constructor
      · rintro ⟨pre, post, h1, h2, h3⟩
        exact ⟨cols, pre, post, rfl, h1, h2, h3⟩
      · rintro ⟨cols', pre, post, h0, h1, h2, h3⟩
        subst h0
        exact ⟨pre, post, h1, h2, h3⟩
  · unfold Column
    cases hg : mapGet dc.ColumnsWithParent (columnDatabaseKey dc.defaultSchema t) with
    | none => simp
    | some cols =>
      simp only [columnScan_eq_none_iff, Option.some.injEq, false_or, reduceCtorEq]
      constructor
      · intro h
        exact ⟨cols, rfl, h⟩
      · rintro ⟨cols', h0, h⟩
        subst h0
        exact h
  · unfold Column
    cases hg : mapGet dc.ColumnsWithParent (columnDatabaseKey dc.defaultSchema t) with
    | none => left; rfl
    | some cols => exact columnScan_total T c cols

/-- C5, as stated, fails: `SortedTablesByDBName("main")` on a snapshot that stores
the tables of `main` as `b`, `a` leaves them stored as `a`, `b`, so the snapshot
after the call differs from the snapshot before it. -/
theorem SortedTablesByDBName_mutates_snapshot :
    mapGet unsortedSnapshot.SchemaTables (str "main") = some [str "b", str "a"] ∧
    mapGet (stateAfter unsortedSnapshot (.SortedTablesByDBName (str "main"))).SchemaTables
      (str "main") = some [str "a", str "b"] ∧
    stateAfter unsortedSnapshot (.SortedTablesByDBName (str "main")) ≠ unsortedSnapshot := by
  decide

/-- C5, amended. Every query operation leaves `defaultSchema`, `Schemas`,
`ColumnsWithParent` and `IndexWithParent` as they were; every operation other than
`SortedTablesByDBName` and `SortedTables` leaves the whole snapshot as it was;
`SortedTablesByDBName(s)`, and `SortedTables` with `s` the default schema,
replace the table sequence stored for `s` by its sorted form and leave the
sequence stored for every other schema as it was. -/
theorem query_frame (dc : DBCache) (q : Query) :
    (stateAfter dc q).defaultSchema = dc.defaultSchema ∧
    (stateAfter dc q).Schemas = dc.Schemas ∧
    (stateAfter dc q).ColumnsWithParent = dc.ColumnsWithParent ∧
    (stateAfter dc q).IndexWithParent = dc.IndexWithParent ∧
    ((∀ s, q ≠ .SortedTablesByDBName s) → q ≠ .SortedTables → stateAfter dc q = dc) ∧
    (∀ s, q = .SortedTablesByDBName s ∨ (q = .SortedTables ∧ s = dc.defaultSchema) →
      ∀ k, mapGet (stateAfter dc q).SchemaTables k =
        if k = s then (mapGet dc.SchemaTables k).map sortStrings
        else mapGet dc.SchemaTables k) := by
  have hfields : ∀ s, (SortedTablesByDBName dc s).2.defaultSchema = dc.defaultSchema ∧
      (SortedTablesByDBName dc s).2.Schemas = dc.Schemas ∧
      (SortedTablesByDBName dc s).2.ColumnsWithParent = dc.ColumnsWithParent ∧
      (SortedTablesByDBName dc s).2.IndexWithParent = dc.IndexWithParent := by
    intro s
    unfold SortedTablesByDBName
    cases mapGet dc.SchemaTables s <;> exact ⟨rfl, rfl, rfl, rfl⟩
  refine ⟨?_, ?_, ?_, ?_, ?_, ?_⟩
  · cases q <;> first | rfl | exact (hfields _).1
  · cases q <;> first | rfl | exact (hfields _).2.1
  · cases q <;> first | rfl | exact (hfields _).2.2.1
  · cases q <;> first | rfl | exact (hfields _).2.2.2
  · intro h1 h2
    cases q <;> first | rfl | exact absurd rfl (h1 _) | exact absurd rfl h2
  · intro s hq k
    rcases hq with hq | ⟨hq, hs⟩
    · subst hq
      exact SchemaTables_after_sort dc s k
    · subst hq
      subst hs
      exact SchemaTables_after_sort dc dc.defaultSchema k

/-- C5, amended, at a concrete input: on the snapshot storing `b`, `a` for `main`,
a `Database` lookup leaves the snapshot as it was, and `SortedTablesByDBName` of
`main` leaves the tables stored for `aux` as they were and those of `main`
sorted. -/
theorem query_frame_witness :
    stateAfter unsortedSnapshot (.Database (str "main")) = unsortedSnapshot ∧
    mapGet (stateAfter unsortedSnapshot (.SortedTablesByDBName (str "main"))).SchemaTables
      (str "aux") = some [str "z", str "y"] ∧
    mapGet (stateAfter unsortedSnapshot (.SortedTablesByDBName (str "main"))).SchemaTables
      (str "main") = some [str "a", str "b"] :=
  ⟨(query_frame unsortedSnapshot (.Database (str "main"))).2.2.2.2.1
      (fun _ h => Query.noConfusion h) (fun h => Query.noConfusion h),
   ((query_frame unsortedSnapshot (.SortedTablesByDBName (str "main"))).2.2.2.2.2
      (str "main") (Or.inl rfl) (str "aux")).trans (by decide),
   ((query_frame unsortedSnapshot (.SortedTablesByDBName (str "main"))).2.2.2.2.2
      (str "main") (Or.inl rfl) (str "main")).trans (by decide)⟩

/-- C6. `SortedTablesByDBName(s)` reports found exactly when `s` is a key of
`SchemaTables`; when found, the returned sequence is non-decreasing and a
permutation of the sequence stored for `s`; when not found it is empty. -/
theorem SortedTablesByDBName_sorted_perm (dc : DBCache) (s : GoString) :
    ((SortedTablesByDBName dc s).1.2 = true ↔ (mapGet dc.SchemaTables s).isSome = true) ∧
    (∀ tbls, mapGet dc.SchemaTables s = some tbls →
      (SortedTablesByDBName dc s).1.2 = true ∧
      (SortedTablesByDBName dc s).1.1.Sorted (· ≤ ·) ∧
      (SortedTablesByDBName dc s).1.1.Perm tbls) ∧
    (mapGet dc.SchemaTables s = none → (SortedTablesByDBName dc s).1 = ([], false)) := by
  unfold SortedTablesByDBName
  cases hg : mapGet dc.SchemaTables s with
  | none => simp
  | some tbls =>
    refine ⟨by simp, ?_, by simp⟩
    intro tbls' h
    cases h
    exact ⟨rfl, sortStrings_sorted tbls, sortStrings_perm tbls⟩

/-- C6, at a concrete input: the tables `b`, `a` stored for `main` come back as
`a`, `b`, and an unknown schema gives the empty sequence and not found. -/
theorem SortedTablesByDBName_sorted_perm_witness :
    (SortedTablesByDBName unsortedSnapshot (str "main")).1 = ([str "a", str "b"], true) ∧
    (SortedTablesByDBName unsortedSnapshot (str "main")).1.1.Perm [str "b", str "a"] ∧
    (SortedTablesByDBName unsortedSnapshot (str "none")).1 = ([], false) :=
  ⟨by decide,
   ((SortedTablesByDBName_sorted_perm unsortedSnapshot (str "main")).2.1
      [str "b", str "a"] (by decide)).2.2,
   (SortedTablesByDBName_sorted_perm unsortedSnapshot (str "none")).2.2 (by decide)⟩

/-- C7, as stated, fails: for the provider's names `main`, `MAIN` the schema index
keeps one entry, `SortedSchemas()` is `["MAIN"]`, and the name `main` of the list
does not occur in it. -/
theorem SortedSchemas_drops_overwritten_name :
    SortedSchemas (schemaSnapshot kelvinTables [str "main", str "MAIN"]) = [str "MAIN"] ∧
    str "main" ∈ [str "main", str "MAIN"] ∧
    str "main" ∉ SortedSchemas (schemaSnapshot kelvinTables [str "main", str "MAIN"]) := by
  decide

/-- C7, amended. For the provider's names `L`, `SortedSchemas()` on the snapshot
built from `L` is non-decreasing, every name in it is a name of `L`, and a name
occurs in it exactly when it stands in `L` at a position after which no name of
`L` has the same upper-cased form (so a name of `L` whose upper-cased form no
other name of `L` shares always occurs); the result is the same for every order
in which the map entries are enumerated. -/
theorem SortedSchemas_sorted_registered {E : Type} (T : CaseTables)
    (repo : DBRepository E) (dc : DBCache) (L : List GoString)
    (hL : repo.Schemas = .ok L) (hdc : genSchemaCache T repo = .ok dc.Schemas) :
    (SortedSchemas dc).Sorted (· ≤ ·) ∧
    (∀ x ∈ SortedSchemas dc, x ∈ L) ∧
    (∀ x, x ∈ SortedSchemas dc ↔
      ∃ pre post, L = pre ++ x :: post ∧ ∀ y ∈ post, ToUpper T y ≠ ToUpper T x) ∧
    (∀ x ∈ L, (∀ y ∈ L, ToUpper T y = ToUpper T x → y = x) → x ∈ SortedSchemas dc) ∧
    (∀ entries : List (GoString × GoString), entries.Perm dc.Schemas →
      sortedSchemasOf entries = SortedSchemas dc) := by
  have hm := schemas_of_genSchemaCache T repo L dc.Schemas hL hdc
  have hiff : ∀ x, x ∈ SortedSchemas dc ↔
      ∃ pre post, L = pre ++ x :: post ∧ ∀ y ∈ post, ToUpper T y ≠ ToUpper T x := by
    intro x
    unfold SortedSchemas sortedSchemasOf
    rw [(sortStrings_perm _).mem_iff, hm]
    exact mem_genSchemaMap_values T L x
  refine ⟨sortStrings_sorted _, ?_, hiff, ?_, ?_⟩
  · intro x hx
    obtain ⟨pre, post, hL', _⟩ := (hiff x).1 hx
    rw [hL']
    simp
  · intro x hx huniq
    have hne : L.filter (fun y => ToUpper T y = ToUpper T x) ≠ [] := by
      intro h
      rw [List.filter_eq_nil_iff] at h
      exact h x hx (by simp)
    cases hg : (L.filter (fun y => ToUpper T y = ToUpper T x)).getLast? with
    | none => exact absurd (List.getLast?_eq_none_iff.1 hg) hne
    | some v =>
      have hv := List.mem_filter.1 (List.mem_of_getLast?_eq_some hg)
      have hvx : v = x := huniq v hv.1 (by simpa using hv.2)
      subst hvx
      obtain ⟨pre, post, hL', _, hpost⟩ := (getLast?_filter_eq_some_iff _ L v).1 hg
      exact (hiff v).2 ⟨pre, post, hL', fun y hy => by simpa using hpost y hy⟩
  · intro entries hperm
    unfold SortedSchemas sortedSchemasOf
    exact sortStrings_eq_of_perm _ _ (hperm.map Prod.snd)

/-- C7, amended, at a concrete input: the names `main`, `TEMP` give
`["TEMP", "main"]`, also when the two map entries are enumerated in the other
order. -/
theorem SortedSchemas_sorted_registered_witness :
    SortedSchemas (schemaSnapshot kelvinTables [str "main", str "TEMP"])
      = [str "TEMP", str "main"] ∧
    sortedSchemasOf [(str "TEMP", str "TEMP"), (str "MAIN", str "main")]
      = SortedSchemas (schemaSnapshot kelvinTables [str "main", str "TEMP"]) :=
  ⟨by decide,
   (SortedSchemas_sorted_registered kelvinTables (schemaRepo [str "main", str "TEMP"])
      (schemaSnapshot kelvinTables [str "main", str "TEMP"]) [str "main", str "TEMP"]
      rfl rfl).2.2.2.2 [(str "TEMP", str "TEMP"), (str "MAIN", str "main")]
      (List.Perm.swap _ _ _)⟩

/-- C8, as stated, fails: a build whose schema listing fails and a build whose
table listing fails, both with the underlying error `boom`, return the same
error, which is `boom` itself and names no step. -/
theorem GenerateDBCachePrimary_errors_indistinguishable :
    schemasFailRepo.Schemas = .error (str "boom") ∧
    tablesFailRepo.Schemas = .ok [str "main", str "TEMP"] ∧
    tablesFailRepo.SchemaTables = .error (str "boom") ∧
    GenerateDBCachePrimary kelvinTables schemasFailRepo = .error (str "boom") ∧
    GenerateDBCachePrimary kelvinTables tablesFailRepo
      = GenerateDBCachePrimary kelvinTables schemasFailRepo :=
  ⟨rfl, rfl, rfl, rfl, rfl⟩

/-- C8, amended. A failed build returns the underlying error of the first failing
provider call unchanged: `GenerateDBCachePrimary` returns the error `x` exactly
when `x` is the error of `CurrentSchema`, or of `Schemas` after a successful
`CurrentSchema`, and so on through `SchemaTables` and the column and index
fetches for the current schema.  The error carries no step identifier. -/
theorem GenerateDBCachePrimary_error_is_underlying {E : Type} (T : CaseTables)
    (repo : DBRepository E) (x : E) :
    GenerateDBCachePrimary T repo = .error x ↔
      (repo.CurrentSchema = .error x ∨
        ∃ d, repo.CurrentSchema = .ok d ∧
          (repo.Schemas = .error x ∨
            ∃ dbs, repo.Schemas = .ok dbs ∧
              (repo.SchemaTables = .error x ∨
                ∃ tbls, repo.SchemaTables = .ok tbls ∧
                  (repo.DescribeDatabaseTableBySchema d = .error x ∨
                    ∃ cols, repo.DescribeDatabaseTableBySchema d = .ok cols ∧
                      repo.DescribeDatabaseIndexBySchema d = .error x)))) := by
  unfold GenerateDBCachePrimary genSchemaCache genColumnCacheCurrent genIndexCacheCurrent
  cases h1 : repo.CurrentSchema with
  | error e => simp
  | ok d =>
    cases h2 : repo.Schemas with
    | error e => simp
    | ok dbs =>
      cases h3 : repo.SchemaTables with
      | error e => simp
      | ok tbls =>
        cases h4 : repo.DescribeDatabaseTableBySchema d with
        | error e => simp [h4]
        | ok cols =>
          cases h5 : repo.DescribeDatabaseIndexBySchema d with
          | error e => simp [h4, h5]
          | ok idx => simp [h4, h5]

/-- C9. Composite keys separate (schema, table) pairs when the schema names hold
no tab: equal keys give equal schemas and equal tables; hence on `genColumnMap(L)`
for descriptors with tab-free `Schema`, `ColumnDatabase(s, t)` for tab-free `s`
returns the descriptors of `L` with schema `s` and table `t`, in the order of
`L`, and found exactly when there is one. -/
theorem ColumnDatabase_separates (s₁ s₂ t₁ t₂ s t : GoString) (L : List ColumnDesc)
    (dc : DBCache) (h₁ : tab ∉ s₁) (h₂ : tab ∉ s₂) (hL : ∀ d ∈ L, tab ∉ d.Schema)
    (hs : tab ∉ s) (hdc : dc.ColumnsWithParent = genColumnMap L) :
    (columnDatabaseKey s₁ t₁ = columnDatabaseKey s₂ t₂ → s₁ = s₂ ∧ t₁ = t₂) ∧
    ColumnDatabase dc s t =
      (L.filter (fun d => d.Schema = s ∧ d.Table = t),
       !(L.filter (fun d => d.Schema = s ∧ d.Table = t)).isEmpty) := by
  refine ⟨fun h => compositeKey_inj s₁ s₂ t₁ t₂ h₁ h₂ h, ?_⟩
  have hfilter : L.filter (fun d => d.Schema ++ [tab] ++ d.Table = columnDatabaseKey s t)
      = L.filter (fun d => d.Schema = s ∧ d.Table = t) := by
    apply List.filter_congr
    intro d hd
    have : d.Schema ++ [tab] ++ d.Table = columnDatabaseKey s t ↔
        d.Schema = s ∧ d.Table = t := by
      constructor
      · intro h
        exact compositeKey_inj _ _ _ _ (hL d hd) hs h
      · rintro ⟨rfl, rfl⟩
        rfl
    simp only [this]
  unfold ColumnDatabase
  rw [hdc, mapGet_genColumnMap, hfilter]
  cases L.filter (fun d => d.Schema = s ∧ d.Table = t) <;> simp [extendGroup]

/-- C9, at a concrete input: the columns of two tables of the schema `s`, looked
up for the table `t1`. -/
theorem ColumnDatabase_separates_witness :
    (columnDatabaseKey (str "s") (str "t1") = columnDatabaseKey (str "s") (str "t1") →
      str "s" = str "s" ∧ str "t1" = str "t1") ∧
    ColumnDatabase (columnSnapshot "s"
        [mkColumn "s" "t1" "c1", mkColumn "s" "t2" "c3", mkColumn "s" "t1" "c2"])
        (str "s") (str "t1")
      = ([mkColumn "s" "t1" "c1", mkColumn "s" "t1" "c2"], true) :=
  ColumnDatabase_separates (str "s") (str "s") (str "t1") (str "t1") (str "s") (str "t1")
    [mkColumn "s" "t1" "c1", mkColumn "s" "t2" "c3", mkColumn "s" "t1" "c2"]
    (columnSnapshot "s"
      [mkColumn "s" "t1" "c1", mkColumn "s" "t2" "c3", mkColumn "s" "t1" "c2"])
    (by decide) (by decide) (by decide) (by decide) rfl

/-- C10. Last-write-wins schema registration: on the index built from the
provider's names `L`, `Database(s)` for a name `s` of `L` returns `(v, true)`
where `v` is the last element of `L` whose upper-cased form is that of `s`; and
whatever name `q` is looked up, a value `v` returned as found stands in `L` at a
position after which no name has the upper-cased form of `q`, so a name
overwritten by a later one is returned by no lookup. -/
theorem Database_last_write_wins {E : Type} (T : CaseTables) (repo : DBRepository E)
    (dc : DBCache) (L : List GoString)
    (hL : repo.Schemas = .ok L) (hdc : genSchemaCache T repo = .ok dc.Schemas) :
    (∀ s ∈ L, ∃ v pre post, Database T dc s = (v, true) ∧ L = pre ++ v :: post ∧
      ToUpper T v = ToUpper T s ∧ ∀ y ∈ post, ToUpper T y ≠ ToUpper T s) ∧
    (∀ q v, Database T dc q = (v, true) →
      ∃ pre post, L = pre ++ v :: post ∧ ToUpper T v = ToUpper T q ∧
        ∀ y ∈ post, ToUpper T y ≠ ToUpper T q) ∧
    (∀ q, Database T dc q =
      match (L.filter (fun x => ToUpper T x = ToUpper T q)).getLast? with
      | some v => (v, true)
      | none => ([], false)) := by
  have hm := schemas_of_genSchemaCache T repo L dc.Schemas hL hdc
  have hchar : ∀ q, Database T dc q =
      match (L.filter (fun x => ToUpper T x = ToUpper T q)).getLast? with
      | some v => (v, true)
      | none => ([], false) := by
    intro q
    unfold Database
    rw [hm, mapGet_genSchemaMap]
  have hfound : ∀ q v, Database T dc q = (v, true) →
      ∃ pre post, L = pre ++ v :: post ∧ ToUpper T v = ToUpper T q ∧
        ∀ y ∈ post, ToUpper T y ≠ ToUpper T q := by
    intro q v h
    rw [hchar q] at h
    cases hg : (L.filter (fun x => ToUpper T x = ToUpper T q)).getLast? with
    | none => rw [hg] at h; simp at h
    | some w =>
      rw [hg] at h
      have hwv : w = v := by simpa using h
      subst hwv
      obtain ⟨pre, post, hL', hv, hpost⟩ := (getLast?_filter_eq_some_iff _ L w).1 hg
      exact ⟨pre, post, hL', by simpa using hv, fun y hy => by simpa using hpost y hy⟩
  refine ⟨?_, hfound, hchar⟩
  intro s hs
  have hne : L.filter (fun x => ToUpper T x = ToUpper T s) ≠ [] := by
    intro h
    rw [List.filter_eq_nil_iff] at h
    exact h s hs (by simp)
  cases hg : (L.filter (fun x => ToUpper T x = ToUpper T s)).getLast? with
  | none => exact absurd (List.getLast?_eq_none_iff.1 hg) hne
  | some v =>
    have hD : Database T dc s = (v, true) := by rw [hchar s, hg]
    obtain ⟨pre, post, h1, h2, h3⟩ := hfound s v hD
    exact ⟨v, pre, post, hD, h1, h2, h3⟩

/-- C10, at a concrete input: of the names `main`, `Main`, `TEMP`, `MAIN` the
lookups of `main`, `Main` and `MAIN` all return `MAIN`, the last of the three. -/
theorem Database_last_write_wins_witness :
    Database kelvinTables
        (schemaSnapshot kelvinTables [str "main", str "Main", str "TEMP", str "MAIN"])
        (str "main") = (str "MAIN", true) ∧
    Database kelvinTables
        (schemaSnapshot kelvinTables [str "main", str "Main", str "TEMP", str "MAIN"])
        (str "Main") = (str "MAIN", true) :=
  have h := (Database_last_write_wins kelvinTables
    (schemaRepo [str "main", str "Main", str "TEMP", str "MAIN"])
    (schemaSnapshot kelvinTables [str "main", str "Main", str "TEMP", str "MAIN"])
    [str "main", str "Main", str "TEMP", str "MAIN"] rfl rfl).2.2
  ⟨(h (str "main")).trans (by decide), (h (str "Main")).trans (by decide)⟩

/-- C11. Schema index invariant: for the provider's names `L`, every entry
`(k, v)` of the map built by `genSchemaCache` has `k = strings.ToUpper(v)` and
`v` in `L`; the same holds of the `Schemas` field of every snapshot returned by
`GenerateDBCachePrimary`. -/
theorem genSchemaCache_invariant {E : Type} (T : CaseTables) (repo : DBRepository E)
    (L : List GoString) (hL : repo.Schemas = .ok L) :
    (∃ m, genSchemaCache T repo = .ok m) ∧
    (∀ m, genSchemaCache T repo = .ok m →
      ∀ k v, (k, v) ∈ m → k = ToUpper T v ∧ v ∈ L) ∧
    (∀ dc, GenerateDBCachePrimary T repo = .ok dc →
      ∀ k v, (k, v) ∈ dc.Schemas → k = ToUpper T v ∧ v ∈ L) := by
  have hkey : ∀ m, genSchemaCache T repo = .ok m →
      ∀ k v, (k, v) ∈ m → k = ToUpper T v ∧ v ∈ L := by
    intro m hm k v hkv
    rw [schemas_of_genSchemaCache T repo L m hL hm] at hkv
    exact genSchemaMap_entry T L k v hkv
  refine ⟨⟨genSchemaMap T L, by simp [genSchemaCache, hL]⟩, hkey, ?_⟩
  intro dc hdc
  exact hkey dc.Schemas (schemas_of_GenerateDBCachePrimary T repo dc hdc)

/-- C11, at a concrete provider: the snapshot built from the schemas `main` and
`TEMP` holds the entry `MAIN` to `main`, whose key is the upper case of its
value. -/
theorem genSchemaCache_invariant_witness :
    str "MAIN" = ToUpper kelvinTables (str "main") ∧
    str "main" ∈ [str "main", str "TEMP"] :=
  (genSchemaCache_invariant kelvinTables sampleRepo [str "main", str "TEMP"] rfl).2.1
    [(str "MAIN", str "main"), (str "TEMP", str "TEMP")] rfl
    (str "MAIN") (str "main") (by decide)

/-- C12. Successful build postcondition: when `CurrentSchema` returns `d` and the
schema listing, the table listing and the column and index fetches for the schema
`d` succeed, the snapshot returned has `defaultSchema = d`, `Schemas` the
upper-case index of the schema names, `SchemaTables` the provider's table listing
unchanged, `ColumnsWithParent = genColumnMap` of the columns fetched for `d` and
`IndexWithParent = genIndexMap` of the indexes fetched for `d`. -/
theorem GenerateDBCachePrimary_postcondition {E : Type} (T : CaseTables)
    (repo : DBRepository E) (d : GoString) (dbs : List GoString)
    (tbls : GoMap (List GoString)) (cols : List ColumnDesc) (idx : List IndexDesc)
    (h1 : repo.CurrentSchema = .ok d) (h2 : repo.Schemas = .ok dbs)
    (h3 : repo.SchemaTables = .ok tbls)
    (h4 : repo.DescribeDatabaseTableBySchema d = .ok cols)
    (h5 : repo.DescribeDatabaseIndexBySchema d = .ok idx) :
    GenerateDBCachePrimary T repo =
      .ok { defaultSchema := d
            Schemas := genSchemaMap T dbs
            SchemaTables := tbls
            ColumnsWithParent := genColumnMap cols
            IndexWithParent := genIndexMap idx } := by
  simp [GenerateDBCachePrimary, genSchemaCache, genColumnCacheCurrent,
    genIndexCacheCurrent, h1, h2, h3, h4, h5]

/-- C12, at a concrete provider: the build of `sampleRepo`. -/
theorem GenerateDBCachePrimary_postcondition_witness :
    GenerateDBCachePrimary kelvinTables sampleRepo =
      .ok { defaultSchema := str "main"
            Schemas := [(str "MAIN", str "main"), (str "TEMP", str "TEMP")]
            SchemaTables := [(str "main", [str "b", str "a"])]
            ColumnsWithParent :=
              [(str "main\tusers", [mkColumn "main" "users" "Id"])]
            IndexWithParent := [] } :=
  GenerateDBCachePrimary_postcondition kelvinTables sampleRepo (str "main")
    [str "main", str "TEMP"] [(str "main", [str "b", str "a"])]
    [mkColumn "main" "users" "Id"] [] rfl rfl rfl rfl rfl

/-- C13, as stated, fails: there is no list of schema names for which
`SortedSchemas()` on the snapshot built from it holds a name more than once. -/
theorem SortedSchemas_never_duplicates :
    ¬ ∃ (T : CaseTables) (L : List GoString) (x : GoString),
      List.Duplicate x (SortedSchemas (schemaSnapshot T L)) := by
  rintro ⟨T, L, x, hx⟩
  exact List.nodup_iff_forall_not_duplicate.1 (SortedSchemas_schemaSnapshot_nodup T L) x hx

/-- C13, amended. `SortedSchemas()` on the snapshot built from the provider's
names `L` holds no name more than once: two entries with the same canonical name
would share the key `strings.ToUpper` of that name, and a map has one entry per
key.  `SortedSchemas()` itself removes nothing: on any snapshot its result is a
permutation of the values stored in `Schemas`. -/
theorem SortedSchemas_nodup {E : Type} (T : CaseTables) (repo : DBRepository E)
    (dc : DBCache) (L : List GoString)
    (hL : repo.Schemas = .ok L) (hdc : genSchemaCache T repo = .ok dc.Schemas) :
    (SortedSchemas dc).Nodup ∧ (∀ x, ¬ List.Duplicate x (SortedSchemas dc)) ∧
    (∀ dc' : DBCache, (SortedSchemas dc').Perm (dc'.Schemas.map Prod.snd)) := by
  have hm := schemas_of_genSchemaCache T repo L dc.Schemas hL hdc
  have hnd : (SortedSchemas dc).Nodup := by
    unfold SortedSchemas sortedSchemasOf
    rw [hm]
    exact (sortStrings_perm _).nodup_iff.2 (genSchemaMap_values_nodup T L)
  exact ⟨hnd, List.nodup_iff_forall_not_duplicate.1 hnd, fun dc' => sortStrings_perm _⟩

/-- C13, amended, at a concrete input: the names `main`, `MAIN`, `main`, `TEMP`
give `["TEMP", "main"]`, each name once. -/
theorem SortedSchemas_nodup_witness :
    SortedSchemas
        (schemaSnapshot kelvinTables [str "main", str "MAIN", str "main", str "TEMP"])
      = [str "TEMP", str "main"] ∧
    (SortedSchemas
        (schemaSnapshot kelvinTables [str "main", str "MAIN", str "main", str "TEMP"])).Nodup :=
  ⟨by decide,
   (SortedSchemas_nodup kelvinTables
      (schemaRepo [str "main", str "MAIN", str "main", str "TEMP"])
      (schemaSnapshot kelvinTables [str "main", str "MAIN", str "main", str "TEMP"])
      [str "main", str "MAIN", str "main", str "TEMP"] rfl rfl).1⟩

/-- C14. Index lookup uses the grouping and key scheme of columns:
`indexDatabaseKey(s, t) = columnDatabaseKey(s, t)`, and on a snapshot whose
`IndexWithParent` is `genIndexMap(L)` and whose default schema is `d`,
`IndexDescs(t)` returns the sub-list of `L` of the descriptors with
`Schema + "\t" + Table = d + "\t" + t`, in the order of `L`, with found exactly
when that sub-list is non-empty. -/
theorem IndexDescs_grouping (L : List IndexDesc) (dc : DBCache) (t : GoString)
    (hdc : dc.IndexWithParent = genIndexMap L) :
    (∀ s t', indexDatabaseKey s t' = columnDatabaseKey s t') ∧
    IndexDescs dc t =
      (L.filter (fun x => x.Schema ++ [tab] ++ x.Table = dc.defaultSchema ++ [tab] ++ t),
       !(L.filter
          (fun x => x.Schema ++ [tab] ++ x.Table = dc.defaultSchema ++ [tab] ++ t)).isEmpty) := by
  refine ⟨fun _ _ => rfl, ?_⟩
  unfold IndexDescs indexDatabaseKey
  rw [hdc, mapGet_genIndexMap]
  cases L.filter (fun x => x.Schema ++ [tab] ++ x.Table = dc.defaultSchema ++ [tab] ++ t)
    <;> simp [extendGroup]

/-- C14, at a concrete input: two indexes of the table `users` and one of the
table `posts`, default schema `main`. -/
theorem IndexDescs_grouping_witness :
    IndexDescs (indexSnapshot "main"
        [mkIndex "main" "users" "pk", mkIndex "main" "posts" "pk", mkIndex "main" "users" "by_name"])
        (str "users")
      = ([mkIndex "main" "users" "pk", mkIndex "main" "users" "by_name"], true) :=
  (IndexDescs_grouping
    [mkIndex "main" "users" "pk", mkIndex "main" "posts" "pk", mkIndex "main" "users" "by_name"]
    (indexSnapshot "main"
      [mkIndex "main" "users" "pk", mkIndex "main" "posts" "pk", mkIndex "main" "users" "by_name"])
    (str "users") rfl).2.trans (by decide)

/-- C15. The default-schema operations are their schema-qualified forms at the
default schema `d`: `SortedTables()` returns the sequence that
`SortedTablesByDBName(d)` returns (empty when `d` is not a key of
`SchemaTables`) and leaves the same snapshot, and `ColumnDescs(t)` returns the
pair that `ColumnDatabase(d, t)` returns. -/
theorem default_schema_operations (dc : DBCache) (t : GoString) :
    (SortedTables dc).1 = (SortedTablesByDBName dc dc.defaultSchema).1.1 ∧
    (SortedTables dc).2 = (SortedTablesByDBName dc dc.defaultSchema).2 ∧
    (mapGet dc.SchemaTables dc.defaultSchema = none → (SortedTables dc).1 = []) ∧
    ColumnDescs dc t = ColumnDatabase dc dc.defaultSchema t := by
  refine ⟨rfl, rfl, ?_, rfl⟩
  intro h
  simp [SortedTables, SortedTablesByDBName, h]

/-- C15, at a concrete input: the snapshot storing `b`, `a` for its default
schema `main`, and a snapshot whose default schema has no table listing. -/
theorem default_schema_operations_witness :
    (SortedTables unsortedSnapshot).1 = [str "a", str "b"] ∧
    (SortedTables (columnSnapshot "main" [])).1 = [] :=
  ⟨(default_schema_operations unsortedSnapshot []).1.trans (by decide),
   (default_schema_operations (columnSnapshot "main" []) []).2.2.1 rfl⟩

/-- C16, as stated, fails: when the query of `sqlite_master` fails, `Tables` calls
`log.Fatal` and the process ends, so `GenerateDBCachePrimary` returns nothing,
neither a snapshot nor an error. -/
theorem sqlite_build_exits_on_query_failure :
    lockedSQLite.tablesQuery = .failed (str "database is locked") ∧
    GenerateDBCachePrimary kelvinTables lockedSQLite.asDBRepository
      = .error (.exited (str "database is locked")) ∧
    ¬ ∃ err, GenerateDBCachePrimary kelvinTables lockedSQLite.asDBRepository
      = .error (.returned err) := by
  refine ⟨rfl, rfl, ?_⟩
  rintro ⟨err, h⟩
  have h' : (Except.error (Failure.exited (str "database is locked")) : Except Failure DBCache)
      = .error (.returned err) := h
  simp at h'

/-- C16, amended. The cache is never built against the SQLite provider: for every
`SQLite3DBRepository`, `GenerateDBCachePrimary` yields no snapshot.  Following
the calls in order: when the query of `sqlite_master` fails, `log.Fatal` ends the
process; when a scan of its rows fails, that scan error is returned; when, table
by table, the first `PRAGMA table_info` that does not go through fails as a
query, `log.Fatal` ends the process, and when it fails in a scan, that scan
error is returned; when every query and scan succeeds, the error of
`DescribeDatabaseIndexBySchema` is returned.  So the build returns a non-nil
error when no query fails, and ends the process only when a query failed. -/
theorem sqlite_never_builds (T : CaseTables) (db : SQLite3DBRepository) :
    (∀ dc, GenerateDBCachePrimary T db.asDBRepository ≠ .ok dc) ∧
    (∀ tables cols, db.Tables = .ok tables → db.DescribeDatabaseTable = .ok cols →
      GenerateDBCachePrimary T db.asDBRepository = .error (.returned notImplemented)) ∧
    ((∀ err, db.tablesQuery ≠ .failed err) → (∀ t err, db.tableInfoQuery t ≠ .failed err) →
      ∃ err, GenerateDBCachePrimary T db.asDBRepository = .error (.returned err)) ∧
    (∀ err, GenerateDBCachePrimary T db.asDBRepository = .error (.exited err) →
      db.tablesQuery = .failed err ∨ ∃ t, db.tableInfoQuery t = .failed err) ∧
    (∀ err, db.tablesQuery = .failed err →
      GenerateDBCachePrimary T db.asDBRepository = .error (.exited err)) ∧
    (∀ (names : List GoString) err rest,
      db.tablesQuery = .rows (names.map .ok ++ .error err :: rest) →
      GenerateDBCachePrimary T db.asDBRepository = .error (.returned err)) ∧
    (∀ (tables pre post : List GoString) t err,
      db.tablesQuery = .rows (tables.map .ok) → tables = pre ++ t :: post →
      (∀ t' ∈ pre, ∃ rows : List TableInfoRow,
        db.tableInfoQuery t' = .rows (rows.map .ok)) →
      db.tableInfoQuery t = .failed err →
      GenerateDBCachePrimary T db.asDBRepository = .error (.exited err)) ∧
    (∀ (tables pre post : List GoString) t (scanned : List TableInfoRow) err rest,
      db.tablesQuery = .rows (tables.map .ok) → tables = pre ++ t :: post →
      (∀ t' ∈ pre, ∃ rows : List TableInfoRow,
        db.tableInfoQuery t' = .rows (rows.map .ok)) →
      db.tableInfoQuery t = .rows (scanned.map .ok ++ .error err :: rest) →
      GenerateDBCachePrimary T db.asDBRepository = .error (.returned err)) ∧
    (∀ tables : List GoString, db.tablesQuery = .rows (tables.map .ok) →
      (∀ t ∈ tables, ∃ rows : List TableInfoRow,
        db.tableInfoQuery t = .rows (rows.map .ok)) →
      GenerateDBCachePrimary T db.asDBRepository = .error (.returned notImplemented)) := by
  have hgen := sqlite_generate_eq T db
  have hexit : ∀ err, GenerateDBCachePrimary T db.asDBRepository = .error (.exited err) →
      db.tablesQuery = .failed err ∨ ∃ t, db.tableInfoQuery t = .failed err := by
    intro err h
    rw [hgen] at h
    cases hT : db.Tables with
    | error f =>
      rw [hT] at h
      simp only [Except.error.injEq] at h
      subst h
      exact Or.inl (Tables_exited db err hT)
    | ok tables =>
      rw [hT] at h
      cases hD : db.DescribeDatabaseTable with
      | error f =>
        rw [hD] at h
        simp only [Except.error.injEq] at h
        subst h
        unfold SQLite3DBRepository.DescribeDatabaseTable at hD
        rw [hT] at hD
        exact Or.inr (describeAll_exited db tables [] err hD)
      | ok cols =>
        rw [hD] at h
        simp at h
  have hboth : ∀ tables cols, db.Tables = .ok tables → db.DescribeDatabaseTable = .ok cols →
      GenerateDBCachePrimary T db.asDBRepository = .error (.returned notImplemented) := by
    intro tables cols hT hD
    rw [hgen, hT, hD]
  refine ⟨?_, hboth, ?_, hexit, ?_, ?_, ?_, ?_, ?_⟩
  · intro dc h
    rw [hgen] at h
    cases hT : db.Tables with
    | error f => simp [hT] at h
    | ok tables =>
      cases hD : db.DescribeDatabaseTable with
      | error f => simp [hT, hD] at h
      | ok cols => simp [hT, hD] at h
  · intro h1 h2
    cases hg : GenerateDBCachePrimary T db.asDBRepository with
    | ok dc =>
      rw [hgen] at hg
      cases hT : db.Tables with
      | error f => simp [hT] at hg
      | ok tables =>
        cases hD : db.DescribeDatabaseTable with
        | error f => simp [hT, hD] at hg
        | ok cols => simp [hT, hD] at hg
    | error f =>
      cases f with
      | returned err => exact ⟨err, rfl⟩
      | exited err =>
        rcases hexit err hg with h | ⟨t, h⟩
        · exact absurd h (h1 err)
        · exact absurd h (h2 t err)
  · intro err hq
    rw [hgen]
    simp [SQLite3DBRepository.Tables, hq]
  · intro names err rest hq
    have hT : db.Tables = .error (.returned err) := by
      unfold SQLite3DBRepository.Tables
      rw [hq]
      exact scanTables_scan_error names err rest []
    rw [hgen, hT]
  · intro tables pre post t err hq htables hpre ht
    refine sqlite_generate_of_describe_failure T db tables pre post t _ hq htables hpre ?_
    unfold SQLite3DBRepository.describeTable
    rw [ht]
  · intro tables pre post t scanned err rest hq htables hpre ht
    refine sqlite_generate_of_describe_failure T db tables pre post t _ hq htables hpre ?_
    unfold SQLite3DBRepository.describeTable
    rw [ht]
    exact scanTableInfo_scan_error t scanned err rest []
  · intro tables hq hall
    have hT := Tables_of_rows db tables hq
    obtain ⟨all, hall'⟩ := describeAll_all_rows db tables hall
    refine hboth tables all hT ?_
    unfold SQLite3DBRepository.DescribeDatabaseTable
    rw [hT]
    exact hall'

/-- C16, amended, at concrete databases: every query of `sampleSQLite` succeeds
and the build returns the error of the index fetch; `PRAGMA table_info(users)`
fails in `brokenPragmaSQLite` after that of `posts` went through, and the process
ends; the second row of `sqlite_master` fails to scan in `scanErrorSQLite`, and
the build returns that error. -/
theorem sqlite_never_builds_witness :
    GenerateDBCachePrimary kelvinTables sampleSQLite.asDBRepository
      = .error (.returned notImplemented) ∧
    GenerateDBCachePrimary kelvinTables brokenPragmaSQLite.asDBRepository
      = .error (.exited (str "syntax error")) ∧
    GenerateDBCachePrimary kelvinTables scanErrorSQLite.asDBRepository
      = .error (.returned (str "converting NULL to string")) :=
  ⟨(sqlite_never_builds kelvinTables sampleSQLite).2.1
      [str "posts", str "users"] sampleSQLiteColumns rfl rfl,
   (sqlite_never_builds kelvinTables brokenPragmaSQLite).2.2.2.2.2.2.1
      [str "posts", str "users"] [str "posts"] [] (str "users") (str "syntax error")
      rfl rfl
      (fun t' ht' => ⟨postsRows, by
        have : t' = str "posts" := by simpa using ht'
        subst this
        rfl⟩)
      rfl,
   (sqlite_never_builds kelvinTables scanErrorSQLite).2.2.2.2.2.1
      [str "posts"] (str "converting NULL to string") [] rfl⟩

/-- C17. Groups form a partition of the input: every entry of `genColumnMap(L)`
is a non-empty list whose descriptors all have the entry's key as composite key,
no key has two entries, and the lengths of the entries sum to the length of `L`;
the same holds of `genIndexMap`. -/
theorem groups_partition (L : List ColumnDesc) (LI : List IndexDesc) :
    (∀ k g, (k, g) ∈ genColumnMap L →
      g ≠ [] ∧ ∀ d ∈ g, d.Schema ++ [tab] ++ d.Table = k) ∧
    ((genColumnMap L).map Prod.fst).Nodup ∧
    groupTotal (genColumnMap L) = L.length ∧
    (∀ k g, (k, g) ∈ genIndexMap LI →
      g ≠ [] ∧ ∀ d ∈ g, d.Schema ++ [tab] ++ d.Table = k) ∧
    ((genIndexMap LI).map Prod.fst).Nodup ∧
    groupTotal (genIndexMap LI) = LI.length := by
  unfold genColumnMap genIndexMap
  rw [columnStep_eq_groupStep, indexStep_eq_groupStep]
  refine ⟨?_, foldl_groupStep_keys_nodup _ L [] List.nodup_nil, ?_, ?_,
    foldl_groupStep_keys_nodup _ LI [] List.nodup_nil, ?_⟩
  · intro k g h
    obtain ⟨hne, hg⟩ := foldl_groupStep_entry _ L k g h
    refine ⟨hne, ?_⟩
    intro d hd
    rw [hg] at hd
    simpa using (List.mem_filter.1 hd).2
  · rw [groupTotal_foldl_groupStep]
    simp [groupTotal]
  · intro k g h
    obtain ⟨hne, hg⟩ := foldl_groupStep_entry _ LI k g h
    refine ⟨hne, ?_⟩
    intro d hd
    rw [hg] at hd
    simpa using (List.mem_filter.1 hd).2
  · rw [groupTotal_foldl_groupStep]
    simp [groupTotal]

/-- C18. `SortedTablesByDBName` is idempotent on the snapshot state: after one
call `SortedTablesByDBName(s)` the table sequence stored for `s` is sorted; a
second call returns the pair of the first and leaves the snapshot as the first
left it; and the sequence stored for any schema other than `s` is, after either
call, what it was before.  The same holds of `SortedTables` called twice. -/
theorem SortedTablesByDBName_idempotent (dc : DBCache) (s : GoString) :
    (∀ tbls, mapGet (SortedTablesByDBName dc s).2.SchemaTables s = some tbls →
      tbls.Sorted (· ≤ ·)) ∧
    (SortedTablesByDBName (SortedTablesByDBName dc s).2 s).1 = (SortedTablesByDBName dc s).1 ∧
    (SortedTablesByDBName (SortedTablesByDBName dc s).2 s).2 = (SortedTablesByDBName dc s).2 ∧
    (∀ k, k ≠ s →
      mapGet (SortedTablesByDBName dc s).2.SchemaTables k = mapGet dc.SchemaTables k ∧
      mapGet (SortedTablesByDBName (SortedTablesByDBName dc s).2 s).2.SchemaTables k
        = mapGet dc.SchemaTables k) ∧
    SortedTables (SortedTables dc).2 = SortedTables dc := by
  have htwice := SortedTablesByDBName_twice dc s
  refine ⟨?_, by rw [htwice], by rw [htwice], ?_, ?_⟩
  · intro tbls h
    rw [SchemaTables_after_sort, if_pos rfl] at h
    cases hg : mapGet dc.SchemaTables s with
    | none => simp [hg] at h
    | some stored =>
      rw [hg] at h
      have : sortStrings stored = tbls := by simpa using h
      rw [← this]
      exact sortStrings_sorted stored
  · intro k hk
    rw [htwice, SchemaTables_after_sort, if_neg hk]
    exact ⟨rfl, rfl⟩
  · have hdef : (SortedTablesByDBName dc dc.defaultSchema).2.defaultSchema
        = dc.defaultSchema := by
      unfold SortedTablesByDBName
      cases mapGet dc.SchemaTables dc.defaultSchema <;> rfl
    unfold SortedTables
    simp only [hdef, SortedTablesByDBName_twice]

/-- C18, at a concrete input: on the snapshot storing `b`, `a` for `main`, the
first and the second call both return `a`, `b`, and the tables of `aux` stay as
stored. -/
theorem SortedTablesByDBName_idempotent_witness :
    (SortedTablesByDBName (SortedTablesByDBName unsortedSnapshot (str "main")).2
        (str "main")).1 = ([str "a", str "b"], true) ∧
    mapGet (SortedTablesByDBName unsortedSnapshot (str "main")).2.SchemaTables (str "aux")
      = some [str "z", str "y"] :=
  ⟨(SortedTablesByDBName_idempotent unsortedSnapshot (str "main")).2.1.trans (by decide),
   (((SortedTablesByDBName_idempotent unsortedSnapshot (str "main")).2.2.2.1
      (str "aux") (by decide)).1).trans (by decide)⟩

/-- C19. SQLite descriptors agree with the SQLite default schema: `CurrentSchema`
returns `""`, `Schemas` the empty list, `SchemaTables` the single key `""` mapped
to the result of `Tables`; the descriptors returned by `DescribeDatabaseTable`
are, table by table in the order of `Tables`, the scanned rows of
`PRAGMA table_info` in row order, each with `Schema = ""`, `Table` the table
described and `Null = "NO"` exactly when `notnull` is non-zero (`"YES"`
otherwise); hence the map returned by `GenerateDBCacheSecondary` stores under
`columnDatabaseKey("", t)` the descriptors of the table `t`, in that order,
whenever `t` has at least one column. -/
theorem sqlite_descriptors (db : SQLite3DBRepository) (tables : List GoString)
    (all : List ColumnDesc) (hT : db.Tables = .ok tables)
    (hA : db.DescribeDatabaseTable = .ok all) :
    db.asDBRepository.CurrentSchema = .ok [] ∧
    db.asDBRepository.Schemas = .ok [] ∧
    db.asDBRepository.SchemaTables = .ok [([], tables)] ∧
    (∀ t ∈ tables, db.tableInfoQuery t = .rows ((scannedRows db t).map .ok)) ∧
    all = tables.flatMap (fun t => (scannedRows db t).map (tableInfoOf t)) ∧
    (∀ t row, (tableInfoOf t row).Schema = [] ∧ (tableInfoOf t row).Table = t ∧
      ((tableInfoOf t row).Null = str "NO" ↔ row.nonnull ≠ 0) ∧
      ((tableInfoOf t row).Null = str "YES" ↔ row.nonnull = 0)) ∧
    (∀ d ∈ all, d.Schema = [] ∧ d.Table ∈ tables) ∧
    GenerateDBCacheSecondary db.asDBRepository = .ok (genColumnMap all) ∧
    (∀ t, mapGet (genColumnMap all) (columnDatabaseKey [] t) =
      if all.filter (fun d => d.Table = t) = [] then none
      else some (all.filter (fun d => d.Table = t))) ∧
    (∀ t, tables.Nodup → t ∈ tables → scannedRows db t ≠ [] →
      mapGet (genColumnMap all) (columnDatabaseKey [] t)
        = some ((scannedRows db t).map (tableInfoOf t))) := by
  have hall : (∀ t ∈ tables, db.tableInfoQuery t = .rows ((scannedRows db t).map .ok)) ∧
      all = tables.flatMap (fun t => (scannedRows db t).map (tableInfoOf t)) := by
    unfold SQLite3DBRepository.DescribeDatabaseTable at hA
    rw [hT] at hA
    simpa using describeAll_ok db tables [] all hA
  have hmem : ∀ d ∈ all, d.Schema = [] ∧ d.Table ∈ tables := by
    intro d hd
    rw [hall.2] at hd
    obtain ⟨t, ht, hd'⟩ := List.mem_flatMap.1 hd
    obtain ⟨row, _, hrow⟩ := List.mem_map.1 hd'
    subst hrow
    exact ⟨rfl, ht⟩
  have hget : ∀ t, mapGet (genColumnMap all) (columnDatabaseKey [] t) =
      if all.filter (fun d => d.Table = t) = [] then none
      else some (all.filter (fun d => d.Table = t)) := by
    intro t
    have hfilter : all.filter (fun d => d.Schema ++ [tab] ++ d.Table = columnDatabaseKey [] t)
        = all.filter (fun d => d.Table = t) := by
      apply List.filter_congr
      intro d hd
      have hs := (hmem d hd).1
      have : d.Schema ++ [tab] ++ d.Table = columnDatabaseKey [] t ↔ d.Table = t := by
        rw [hs]
        unfold columnDatabaseKey
        simp
      simp only [this]
    rw [mapGet_genColumnMap, hfilter]
    cases all.filter (fun d => d.Table = t) <;> simp [extendGroup]
  refine ⟨rfl, rfl, ?_, hall.1, hall.2, ?_, hmem, ?_, hget, ?_⟩
  · simp [SQLite3DBRepository.asDBRepository, SQLite3DBRepository.SchemaTables, hT]
  · intro t row
    refine ⟨rfl, rfl, ?_, ?_⟩
    · unfold tableInfoOf
      by_cases h : row.nonnull = 0
      · simp only [h, ne_eq, not_true_eq_false, if_false, iff_false]
        decide
      · simp [h]
    · unfold tableInfoOf
      by_cases h : row.nonnull = 0
      · simp [h]
      · simp only [h, ne_eq, not_false_eq_true, if_true, iff_false]
        decide
  · simp [GenerateDBCacheSecondary, genColumnCacheAll, SQLite3DBRepository.asDBRepository, hA]
  · intro t hnd ht hne
    have hfl : all.filter (fun d => d.Table = t) = (scannedRows db t).map (tableInfoOf t) := by
      rw [hall.2]
      refine filter_flatMap_table (fun t => (scannedRows db t).map (tableInfoOf t))
        tables t ?_ hnd ht
      intro t' d hd
      obtain ⟨row, _, hrow⟩ := List.mem_map.1 hd
      subst hrow
      rfl
    rw [hget t, hfl]
    have : (scannedRows db t).map (tableInfoOf t) ≠ [] := by
      intro h
      exact hne (List.map_eq_nil_iff.1 h)
    rw [if_neg this]

/-- C19, at a concrete database: the tables `posts` and `users` of `sampleSQLite`;
the two columns of `posts` are stored under the key of `("", posts)`, `id` with
`Null = "NO"` and `title` with `Null = "YES"`. -/
theorem sqlite_descriptors_witness :
    GenerateDBCacheSecondary sampleSQLite.asDBRepository
      = .ok (genColumnMap sampleSQLiteColumns) ∧
    mapGet (genColumnMap sampleSQLiteColumns) (columnDatabaseKey [] (str "posts"))
      = some (postsRows.map (tableInfoOf (str "posts"))) ∧
    (postsRows.map (tableInfoOf (str "posts"))).map (fun d => d.Null)
      = [str "NO", str "YES"] :=
  have h := sqlite_descriptors sampleSQLite [str "posts", str "users"]
    sampleSQLiteColumns rfl rfl
  ⟨h.2.2.2.2.2.2.2.1,
   (h.2.2.2.2.2.2.2.2.2 (str "posts") (by decide) (by decide) (by decide)).trans rfl,
   by decide⟩

end Sqls
